import Mathlib

/-!
Verification development for the Choreonoid GLSL scene renderer
(`src/Base/GLSLSceneRenderer.cpp`).

The development shallowly embeds the renderer's state and the relevant
member functions as pure Lean functions:

* the double-buffered GPU resource cache (`resourceMaps`, `beginRendering`,
  `endRendering`, `getOrCreateVertexResource`, `requestToClearResources`);
* the scene-graph traversal with its pick-id protocol, model-matrix stack,
  draw events and the deferred transparent pass;
* the pick resolution of `doPick`;
* the packed 10-bit normal encoder/decoder of `writeMeshNormalsPacked`;
* the flat-shading normal generation of `writeMeshNormalsSub`;
* the texture (re)load decision of `loadTextureImage`.

C++ `float`/`double` arithmetic is modelled by exact rational (for the
geometric claims, real) arithmetic; integer casts of nonnegative floats
are modelled by `Int.floor`/`Int.toNat`, which agree with C truncation on
nonnegative values.  GL calls themselves are modelled as recorded events
or are omitted when no claim depends on them (each omission is noted at
the definition).
-/

namespace GLSLRenderer

/-! ## Double-buffered resource cache

Model of the fields `resourceMaps[2]`, `currentResourceMap`,
`nextResourceMap`, `currentResourceMapIndex`, `doUnusedResourceCheck`,
`isCheckingUnusedResources`, `hasValidNextResourceMap`,
`isResourceClearRequested` of `GLSLSceneRendererImpl`, and of the member
functions that touch them.  The two generation maps are tracked through
the `currentResourceMap`/`nextResourceMap` pointers, so the index flip of
`beginRendering` (`currentResourceMapIndex = 1 - currentResourceMapIndex`)
becomes an exchange of the two map values; nothing else in the renderer
observes the raw index.  A scene object (`SgObject*`) is modelled as a
natural-number identity; a resource (`VertexResource*`/`GLResource*`) as
the natural number handed out by a fresh-allocation counter, so that two
distinct `new` results never compare equal (pointer identity). -/

abbrev ObjId := Nat

abbrev ResId := Nat

/-- Association-list lookup, modelling `GLResourceMap::find`. -/
def assocFind : List (ObjId × ResId) → ObjId → Option ResId
  | [], _ => none
  | (a, r) :: rest, k => if a = k then some r else assocFind rest k

/-- Insertion modelling `std::unordered_map::insert`: when the key is
already present the map is unchanged. -/
def assocInsert (m : List (ObjId × ResId)) (k : ObjId) (r : ResId) :
    List (ObjId × ResId) :=
  match assocFind m k with
  | some _ => m
  | none => (k, r) :: m

/-- The cache-related state of `GLSLSceneRendererImpl`.  `currentMap` and
`nextMap` are the maps designated by `currentResourceMap` and
`nextResourceMap`; `nextNewResId` models the allocator producing fresh
`VertexResource` objects. -/
structure CacheState where
  currentMap : List (ObjId × ResId)
  nextMap : List (ObjId × ResId)
  hasValidNextResourceMap : Bool
  isResourceClearRequested : Bool
  doUnusedResourceCheck : Bool
  isCheckingUnusedResources : Bool
  nextNewResId : ResId
deriving DecidableEq

/-- `GLSLSceneRenderer::requestToClearResources`: it only raises the flag;
the maps themselves are not touched here. -/
def requestToClearResources (s : CacheState) : CacheState :=
  { s with isResourceClearRequested := true }

/-- `GLSLSceneRendererImpl::beginRendering` (the resource-cache part).
First `isCheckingUnusedResources` is computed from `isPicking` and
`doUnusedResourceCheck`; a pending clear request empties both maps and
disables checking for this frame; finally a valid next map is promoted to
current by flipping the map index. -/
def beginRendering (isPicking : Bool) (s : CacheState) : CacheState :=
  let s1 :=
    { s with isCheckingUnusedResources :=
        if isPicking then false else s.doUnusedResourceCheck }
  let s2 :=
    if s1.isResourceClearRequested then
      { s1 with
          currentMap := []
          nextMap := []
          hasValidNextResourceMap := false
          isCheckingUnusedResources := false
          isResourceClearRequested := false }
    else s1
  if s2.hasValidNextResourceMap then
    { s2 with
        currentMap := s2.nextMap
        nextMap := s2.currentMap
        hasValidNextResourceMap := false }
  else s2

/-- `GLSLSceneRendererImpl::endRendering`: when unused-resource checking
ran this frame, the outgoing current map is dropped and the next map
becomes valid. -/
def endRendering (s : CacheState) : CacheState :=
  if s.isCheckingUnusedResources then
    { s with currentMap := [], hasValidNextResourceMap := true }
  else s

/-- Result of one `getOrCreateVertexResource` call: the returned resource,
whether a fresh `VertexResource` was allocated by this call, and the
post-state. -/
structure LookupResult where
  res : ResId
  created : Bool
  state : CacheState
deriving DecidableEq

/-- `GLSLSceneRendererImpl::getOrCreateVertexResource`: look the object up
in the current map, allocating and registering a fresh resource when
absent; when unused-resource checking is on, the entry is also inserted
into the next map. -/
def getOrCreateVertexResource (obj : ObjId) (s : CacheState) : LookupResult :=
  match assocFind s.currentMap obj with
  | some r =>
      { res := r
        created := false
        state :=
          if s.isCheckingUnusedResources then
            { s with nextMap := assocInsert s.nextMap obj r }
          else s }
  | none =>
      let r := s.nextNewResId
      let s2 :=
        { s with
            currentMap := assocInsert s.currentMap obj r
            nextNewResId := s.nextNewResId + 1 }
      { res := r
        created := true
        state :=
          if s2.isCheckingUnusedResources then
            { s2 with nextMap := assocInsert s2.nextMap obj r }
          else s2 }

/-- One recorded lookup: which object, which resource came back, and
whether the call allocated a fresh resource. -/
structure TraceEntry where
  obj : ObjId
  res : ResId
  created : Bool
deriving DecidableEq

/-- Run a sequence of `getOrCreateVertexResource` calls, recording the
results in order. -/
def runLookups : List ObjId → CacheState → CacheState × List TraceEntry
  | [], s => (s, [])
  | o :: os, s =>
      let l := getOrCreateVertexResource o s
      let rest := runLookups os l.state
      (rest.1, { obj := o, res := l.res, created := l.created } :: rest.2)

/-- One frame: `beginRendering` (as a non-picking render), the frame's
lookups, then `endRendering`. -/
def runFrame (os : List ObjId) (s : CacheState) : CacheState × List TraceEntry :=
  let s1 := beginRendering false s
  let p := runLookups os s1
  (endRendering p.1, p.2)

/-- A sequence of consecutive frames, concatenating the traces. -/
def runFrames : List (List ObjId) → CacheState → CacheState × List TraceEntry
  | [], s => (s, [])
  | f :: fs, s =>
      let p := runFrame f s
      let q := runFrames fs p.1
      (q.1, p.2 ++ q.2)

/-- A concrete renderer state whose generation maps are nonempty. -/
def clearRequestSample : CacheState :=
  { currentMap := [(1, 5)]
    nextMap := [(2, 6)]
    hasValidNextResourceMap := false
    isResourceClearRequested := false
    doUnusedResourceCheck := true
    isCheckingUnusedResources := false
    nextNewResId := 7 }

/-- C2 counterexample: immediately after `requestToClearResources` returns
the maps are NOT empty — the call only raises `isResourceClearRequested`,
and the maps survive untouched until the next `beginRendering`. -/
theorem requestToClearResources_not_synchronous :
    ¬ ((requestToClearResources clearRequestSample).currentMap = [] ∧
       (requestToClearResources clearRequestSample).nextMap = []) := by
  decide

/-- C2 amended: a clear request empties both generations at the next
`beginRendering` (of either a render or a picking pass), not synchronously;
from any state, `beginRendering` run after `requestToClearResources` leaves
both identity-to-resource maps empty. -/
theorem clearRequest_clears_both_maps_at_beginRendering
    (s : CacheState) (isPicking : Bool) :
    (beginRendering isPicking (requestToClearResources s)).currentMap = [] ∧
    (beginRendering isPicking (requestToClearResources s)).nextMap = [] := by
  simp [beginRendering, requestToClearResources]

/-! ### Helper lemmas about the cache maps -/

theorem assocFind_assocInsert_self (m : List (ObjId × ResId)) (k : ObjId)
    (r : ResId) :
    assocFind (assocInsert m k r) k = some ((assocFind m k).getD r) := by
  unfold assocInsert
  cases h : assocFind m k <;> simp [h, assocFind]

theorem assocFind_assocInsert_other {k k' : ObjId} (m : List (ObjId × ResId))
    (r : ResId) (h : k' ≠ k) :
    assocFind (assocInsert m k r) k' = assocFind m k' := by
  unfold assocInsert
  cases hf : assocFind m k
  · show (if k = k' then some r else assocFind m k') = assocFind m k'
    rw [if_neg (fun h' => h h'.symm)]
  · rfl

/-! ### Invariants driving the cross-frame stability proof -/

/-- In-frame flag configuration of a non-picking frame with
unused-resource checking on and no pending clear request. -/
def Flags (s : CacheState) : Prop :=
  s.isCheckingUnusedResources = true ∧ s.isResourceClearRequested = false ∧
    s.doUnusedResourceCheck = true

/-- Mid-frame invariant once `obj` is known to resolve to `r`: the current
generation maps `obj` to `r`, and the next generation either does not know
`obj` yet or also maps it to `r`. -/
def FrameInv (obj : ObjId) (r : ResId) (s : CacheState) : Prop :=
  Flags s ∧ assocFind s.currentMap obj = some r ∧
    (assocFind s.nextMap obj = none ∨ assocFind s.nextMap obj = some r)

/-- Between-frames invariant after a completed checked frame in which
`obj` was looked up: the next generation carries `obj ↦ r`, the outgoing
current generation was dropped, and the promotion is pending. -/
def BetweenInv (obj : ObjId) (r : ResId) (s : CacheState) : Prop :=
  s.isResourceClearRequested = false ∧ s.doUnusedResourceCheck = true ∧
    s.hasValidNextResourceMap = true ∧ assocFind s.nextMap obj = some r ∧
    s.currentMap = []

/-- Shape of every renderer state reachable outside a frame: after a
checked frame the outgoing current map was dropped; otherwise the next map
is empty (as after `initialize`, after a picking pass consumed the
promotion, or after `enableUnusedResourceCheck(false)` cleared it). -/
def WellFormedMaps (s : CacheState) : Prop :=
  (s.hasValidNextResourceMap = true → s.currentMap = []) ∧
    (s.hasValidNextResourceMap = false → s.nextMap = [])

/-- The trace entries of the lookups of one object. -/
def objEntries (obj : ObjId) (tr : List TraceEntry) : List TraceEntry :=
  tr.filter (fun e => e.obj == obj)

theorem mem_objEntries {obj : ObjId} {tr : List TraceEntry} {e : TraceEntry}
    (h : e ∈ objEntries obj tr) : e ∈ tr ∧ e.obj = obj := by
  have h' := List.mem_filter.mp h
  exact ⟨h'.1, by simpa using h'.2⟩

theorem objEntries_append (obj : ObjId) (t1 t2 : List TraceEntry) :
    objEntries obj (t1 ++ t2) = objEntries obj t1 ++ objEntries obj t2 := by
  simp [objEntries]

/-- Every `getOrCreateVertexResource` call leaves the frame flags alone. -/
theorem getOrCreate_flags (o : ObjId) (s : CacheState) :
    (getOrCreateVertexResource o s).state.isCheckingUnusedResources =
        s.isCheckingUnusedResources ∧
    (getOrCreateVertexResource o s).state.isResourceClearRequested =
        s.isResourceClearRequested ∧
    (getOrCreateVertexResource o s).state.doUnusedResourceCheck =
        s.doUnusedResourceCheck := by
  simp only [getOrCreateVertexResource]
  cases hfo : assocFind s.currentMap o <;>
    cases hcheck : s.isCheckingUnusedResources <;> simp [hcheck]

/-- A call on an object other than `obj` does not move `obj` in either
generation. -/
theorem getOrCreate_other_find (o obj : ObjId) (s : CacheState) (h : o ≠ obj) :
    assocFind (getOrCreateVertexResource o s).state.currentMap obj =
        assocFind s.currentMap obj ∧
    assocFind (getOrCreateVertexResource o s).state.nextMap obj =
        assocFind s.nextMap obj := by
  simp only [getOrCreateVertexResource]
  cases hfo : assocFind s.currentMap o <;>
    cases hcheck : s.isCheckingUnusedResources <;>
      simp [hcheck, assocFind_assocInsert_other _ _ (Ne.symm h)]

/-- One `getOrCreateVertexResource` call preserves the mid-frame invariant;
a call on `obj` itself returns `(r, created = false)` and writes `obj ↦ r`
into the next generation, and an `obj ↦ r` entry of the next generation is
never lost. -/
theorem getOrCreate_step (o obj : ObjId) (r : ResId) (s : CacheState)
    (h : FrameInv obj r s) :
    FrameInv obj r (getOrCreateVertexResource o s).state ∧
    (o = obj →
      (getOrCreateVertexResource o s).res = r ∧
      (getOrCreateVertexResource o s).created = false ∧
      assocFind (getOrCreateVertexResource o s).state.nextMap obj = some r) ∧
    (assocFind s.nextMap obj = some r →
      assocFind (getOrCreateVertexResource o s).state.nextMap obj = some r) := by
  obtain ⟨⟨hc, hq, hd⟩, hcur, hnext⟩ := h
  by_cases ho : o = obj
  · subst ho
    have hfindnext :
        assocFind (assocInsert s.nextMap o r) o = some r := by
      rcases hnext with hn | hn <;>
        simp [assocFind_assocInsert_self, hn]
    have hstate : (getOrCreateVertexResource o s).state =
        { s with nextMap := assocInsert s.nextMap o r } := by
      simp [getOrCreateVertexResource, hcur, hc]
    have hres : (getOrCreateVertexResource o s).res = r := by
      simp [getOrCreateVertexResource, hcur]
    have hcreated : (getOrCreateVertexResource o s).created = false := by
      simp [getOrCreateVertexResource, hcur]
    rw [hstate]
    exact ⟨⟨⟨hc, hq, hd⟩, hcur, Or.inr hfindnext⟩,
      fun _ => ⟨hres, hcreated, hfindnext⟩, fun _ => hfindnext⟩
  · have hfindnext : ∀ v, assocFind (assocInsert s.nextMap o v) obj =
        assocFind s.nextMap obj :=
      fun v => assocFind_assocInsert_other s.nextMap v (Ne.symm ho)
    cases hfo : assocFind s.currentMap o with
    | none =>
      have hfindcur :
          assocFind (assocInsert s.currentMap o s.nextNewResId) obj =
            assocFind s.currentMap obj :=
        assocFind_assocInsert_other s.currentMap _ (Ne.symm ho)
      have hstate : (getOrCreateVertexResource o s).state =
          { s with
              currentMap := assocInsert s.currentMap o s.nextNewResId
              nextMap := assocInsert s.nextMap o s.nextNewResId
              nextNewResId := s.nextNewResId + 1 } := by
        simp [getOrCreateVertexResource, hfo, hc]
      rw [hstate]
      exact ⟨⟨⟨hc, hq, hd⟩, hfindcur.trans hcur,
          by rw [hfindnext]; exact hnext⟩,
        fun hoo => absurd hoo ho,
        fun hn => by rw [hfindnext]; exact hn⟩
    | some v =>
      have hstate : (getOrCreateVertexResource o s).state =
          { s with nextMap := assocInsert s.nextMap o v } := by
        simp [getOrCreateVertexResource, hfo, hc]
      rw [hstate]
      exact ⟨⟨⟨hc, hq, hd⟩, hcur, by rw [hfindnext]; exact hnext⟩,
        fun hoo => absurd hoo ho,
        fun hn => by rw [hfindnext]; exact hn⟩

/-- Running a frame's remaining lookups from the mid-frame invariant keeps
it, reports `(r, created = false)` for every lookup of `obj`, and ends with
`obj ↦ r` in the next generation provided `obj` occurs in the lookups or
was already recorded there. -/
theorem runLookups_inv (obj : ObjId) (r : ResId) :
    ∀ (os : List ObjId) (s : CacheState), FrameInv obj r s →
      FrameInv obj r (runLookups os s).1 ∧
      (∀ e ∈ (runLookups os s).2, e.obj = obj →
        e.res = r ∧ e.created = false) ∧
      ((obj ∈ os ∨ assocFind s.nextMap obj = some r) →
        assocFind (runLookups os s).1.nextMap obj = some r)
  | [], s, h => by
      refine ⟨h, by simp [runLookups], ?_⟩
      rintro (hin | hn)
      · cases hin
      · simpa [runLookups] using hn
  | o :: os, s, h => by
      obtain ⟨hinv, hself, hsticky⟩ := getOrCreate_step o obj r s h
      obtain ⟨ih1, ih2, ih3⟩ :=
        runLookups_inv obj r os (getOrCreateVertexResource o s).state hinv
      refine ⟨by simpa [runLookups] using ih1, ?_, ?_⟩
      · intro e he heobj
        simp only [runLookups, List.mem_cons] at he
        rcases he with he | he
        · subst he
          obtain ⟨hres, hcreated, _⟩ := hself heobj
          exact ⟨hres, hcreated⟩
        · exact ih2 e he heobj
      · rintro (hin | hn)
        · simp only [List.mem_cons] at hin
          rcases hin with hin | hin
          · subst hin
            have := (hself rfl).2.2
            simpa [runLookups] using ih3 (Or.inr this)
          · simpa [runLookups] using ih3 (Or.inl hin)
        · have := hsticky hn
          simpa [runLookups] using ih3 (Or.inr this)

/-- Flags are untouched by a whole lookup sequence. -/
theorem runLookups_flags :
    ∀ (os : List ObjId) (s : CacheState), Flags s → Flags (runLookups os s).1
  | [], _, h => by simpa [runLookups] using h
  | o :: os, s, h => by
      obtain ⟨h1, h2, h3⟩ := getOrCreate_flags o s
      have : Flags (getOrCreateVertexResource o s).state := by
        obtain ⟨a, b, c⟩ := h
        exact ⟨h1.trans a, h2.trans b, h3.trans c⟩
      simpa [runLookups] using
        runLookups_flags os (getOrCreateVertexResource o s).state this

/-- A fresh run of a frame's lookups containing `obj`, started with no
`obj` entry in the next generation, fixes some resource `r` for `obj`: the
first `obj` lookup yields `r` and all later ones yield `(r, false)`, and
the run ends in the mid-frame invariant with `obj ↦ r` recorded. -/
theorem runLookups_fresh (obj : ObjId) :
    ∀ (os : List ObjId) (s : CacheState), Flags s →
      assocFind s.nextMap obj = none → obj ∈ os →
      ∃ r, Flags (runLookups os s).1 ∧
        assocFind (runLookups os s).1.nextMap obj = some r ∧
        (∃ e0 t, objEntries obj (runLookups os s).2 = e0 :: t ∧
          e0.res = r ∧ ∀ e ∈ t, e.res = r ∧ e.created = false)
  | [], _, _, _, hin => absurd hin (List.not_mem_nil obj)
  | o :: os, s, hF, hnone, hin => by
      by_cases ho : o = obj
      · subst ho
        obtain ⟨hc, hq, hd⟩ := hF
        rcases hcur : assocFind s.currentMap o with _ | r0
        · -- the first lookup allocates a fresh resource
          have hstate : (getOrCreateVertexResource o s).state =
              { s with
                  currentMap := assocInsert s.currentMap o s.nextNewResId
                  nextMap := assocInsert s.nextMap o s.nextNewResId
                  nextNewResId := s.nextNewResId + 1 } := by
            simp [getOrCreateVertexResource, hcur, hc]
          have hinv : FrameInv o s.nextNewResId
              (getOrCreateVertexResource o s).state := by
            rw [hstate]
            refine ⟨⟨hc, hq, hd⟩, ?_, Or.inr ?_⟩ <;>
              simp [assocFind_assocInsert_self, hcur, hnone]
          obtain ⟨ih1, ih2, ih3⟩ :=
            runLookups_inv o s.nextNewResId os
              (getOrCreateVertexResource o s).state hinv
          refine ⟨s.nextNewResId, ih1.1, ?_, ?_⟩
          · have hn :
                assocFind (getOrCreateVertexResource o s).state.nextMap o
                  = some s.nextNewResId := by
              rw [hstate]
              simp [assocFind_assocInsert_self, hnone]
            simpa [runLookups] using ih3 (Or.inr hn)
          · refine ⟨⟨o, s.nextNewResId, true⟩, objEntries o (runLookups os
              (getOrCreateVertexResource o s).state).2, ?_, rfl, ?_⟩
            · have hres :
                  (getOrCreateVertexResource o s).res = s.nextNewResId := by
                simp [getOrCreateVertexResource, hcur]
              have hcreated : (getOrCreateVertexResource o s).created = true := by
                simp [getOrCreateVertexResource, hcur]
              simp [runLookups, objEntries, hres, hcreated]
            · intro e he
              obtain ⟨hmem, heobj⟩ := mem_objEntries he
              exact ih2 e hmem heobj
        · -- the first lookup finds an existing resource
          have hstate : (getOrCreateVertexResource o s).state =
              { s with nextMap := assocInsert s.nextMap o r0 } := by
            simp [getOrCreateVertexResource, hcur, hc]
          have hinv : FrameInv o r0 (getOrCreateVertexResource o s).state := by
            rw [hstate]
            refine ⟨⟨hc, hq, hd⟩, hcur, Or.inr ?_⟩
            simp [assocFind_assocInsert_self, hnone]
          obtain ⟨ih1, ih2, ih3⟩ :=
            runLookups_inv o r0 os (getOrCreateVertexResource o s).state hinv
          refine ⟨r0, ih1.1, ?_, ?_⟩
          · have hn :
                assocFind (getOrCreateVertexResource o s).state.nextMap o
                  = some r0 := by
              rw [hstate]
              simp [assocFind_assocInsert_self, hnone]
            simpa [runLookups] using ih3 (Or.inr hn)
          · refine ⟨⟨o, r0, false⟩, objEntries o (runLookups os
              (getOrCreateVertexResource o s).state).2, ?_, rfl, ?_⟩
            · have hres : (getOrCreateVertexResource o s).res = r0 := by
                simp [getOrCreateVertexResource, hcur]
              have hcreated : (getOrCreateVertexResource o s).created = false := by
                simp [getOrCreateVertexResource, hcur]
              simp [runLookups, objEntries, hres, hcreated]
            · intro e he
              obtain ⟨hmem, heobj⟩ := mem_objEntries he
              exact ih2 e hmem heobj
      · have hin' : obj ∈ os := by
          rcases List.mem_cons.mp hin with h' | h'
          · exact absurd h'.symm ho
          · exact h'
        have hF' : Flags (getOrCreateVertexResource o s).state := by
          obtain ⟨a, b, c⟩ := hF
          obtain ⟨h1, h2, h3⟩ := getOrCreate_flags o s
          exact ⟨h1.trans a, h2.trans b, h3.trans c⟩
        have hnone' :
            assocFind (getOrCreateVertexResource o s).state.nextMap obj
              = none := by
          have := (getOrCreate_other_find o obj s ho).2
          rw [this, hnone]
        obtain ⟨r, ih1, ih2, e0, t, ht, he0, hta⟩ :=
          runLookups_fresh obj os (getOrCreateVertexResource o s).state
            hF' hnone' hin'
        refine ⟨r, by simpa [runLookups] using ih1,
          by simpa [runLookups] using ih2, e0, t, ?_, he0, hta⟩
        have hofilter : (o == obj) = false := by
          simpa using ho
        simp [runLookups, objEntries, hofilter] at ht ⊢
        exact ht

/-- `beginRendering` of a non-picking frame started from the between-frames
invariant re-establishes the mid-frame invariant (the promotion makes the
next generation current) and leaves the new next generation without an
`obj` entry. -/
theorem beginRendering_of_between (obj : ObjId) (r : ResId) (s : CacheState)
    (h : BetweenInv obj r s) :
    FrameInv obj r (beginRendering false s) ∧
    assocFind (beginRendering false s).nextMap obj = none := by
  obtain ⟨hq, hd, hv, hn, hcur⟩ := h
  have hb : beginRendering false s =
      { s with
          currentMap := s.nextMap
          nextMap := s.currentMap
          hasValidNextResourceMap := false
          isCheckingUnusedResources := s.doUnusedResourceCheck } := by
    simp [beginRendering, hq, hv]
  rw [hb]
  exact ⟨⟨⟨hd, hq, hd⟩, hn, Or.inl (by rw [hcur]; rfl)⟩, by rw [hcur]; rfl⟩

/-- `endRendering` of a checked frame whose next generation records
`obj ↦ r` establishes the between-frames invariant. -/
theorem endRendering_between (obj : ObjId) (r : ResId) (s : CacheState)
    (hF : Flags s) (hn : assocFind s.nextMap obj = some r) :
    BetweenInv obj r (endRendering s) := by
  obtain ⟨hc, hq, hd⟩ := hF
  have hb : endRendering s =
      { s with currentMap := [], hasValidNextResourceMap := true } := by
    simp [endRendering, hc]
  rw [hb]
  exact ⟨hq, hd, rfl, hn, rfl⟩

/-- A steady frame: from the between-frames invariant, a frame that looks
`obj` up keeps the invariant with the same resource, and every recorded
`obj` lookup of the frame is `(r, created = false)`. -/
theorem runFrame_steady (obj : ObjId) (r : ResId) (os : List ObjId)
    (s : CacheState) (h : BetweenInv obj r s) (hin : obj ∈ os) :
    BetweenInv obj r (runFrame os s).1 ∧
    ∀ e ∈ (runFrame os s).2, e.obj = obj → e.res = r ∧ e.created = false := by
  obtain ⟨hF1, _⟩ := beginRendering_of_between obj r s h
  obtain ⟨i1, i2, i3⟩ := runLookups_inv obj r os (beginRendering false s) hF1
  have hend := endRendering_between obj r _ i1.1 (i3 (Or.inl hin))
  exact ⟨by simpa [runFrame] using hend, by simpa [runFrame] using i2⟩

/-- Iterating steady frames: every `obj` lookup in the whole remaining run
yields `(r, created = false)`. -/
theorem runFrames_steady (obj : ObjId) (r : ResId) :
    ∀ (fs : List (List ObjId)) (s : CacheState), BetweenInv obj r s →
      (∀ f ∈ fs, obj ∈ f) →
      ∀ e ∈ (runFrames fs s).2, e.obj = obj → e.res = r ∧ e.created = false
  | [], _, _, _ => by simp [runFrames]
  | f :: fs, s, h, hall => by
      obtain ⟨h1, h2⟩ := runFrame_steady obj r f s h (hall f (by simp))
      intro e he heobj
      simp only [runFrames, List.mem_append] at he
      rcases he with he | he
      · exact h2 e he heobj
      · exact runFrames_steady obj r fs (runFrame f s).1 h1
          (fun g hg => hall g (by simp [hg])) e he heobj

/-- `beginRendering` of the first frame of the window, from any well-formed
renderer state with checking enabled and no pending clear request, yields
the frame flags and an `obj`-free next generation. -/
theorem beginRendering_initial (obj : ObjId) (s : CacheState)
    (hq : s.isResourceClearRequested = false)
    (hd : s.doUnusedResourceCheck = true)
    (hw : WellFormedMaps s) :
    Flags (beginRendering false s) ∧
    assocFind (beginRendering false s).nextMap obj = none := by
  cases hv : s.hasValidNextResourceMap
  · have hb : beginRendering false s =
        { s with isCheckingUnusedResources := s.doUnusedResourceCheck } := by
      simp [beginRendering, hq, hv]
    rw [hb]
    refine ⟨⟨hd, hq, hd⟩, ?_⟩
    show assocFind s.nextMap obj = none
    rw [hw.2 hv]
    rfl
  · have hb : beginRendering false s =
        { s with
            currentMap := s.nextMap
            nextMap := s.currentMap
            hasValidNextResourceMap := false
            isCheckingUnusedResources := s.doUnusedResourceCheck } := by
      simp [beginRendering, hq, hv]
    rw [hb]
    refine ⟨⟨hd, hq, hd⟩, ?_⟩
    show assocFind s.currentMap obj = none
    rw [hw.1 hv]
    rfl

/-- The first frame of the window fixes the resource `r` of `obj` and ends
in the between-frames invariant for `r`. -/
theorem runFrame_first (obj : ObjId) (os : List ObjId) (s : CacheState)
    (hq : s.isResourceClearRequested = false)
    (hd : s.doUnusedResourceCheck = true)
    (hw : WellFormedMaps s) (hin : obj ∈ os) :
    ∃ r, BetweenInv obj r (runFrame os s).1 ∧
      (∃ e0 t, objEntries obj (runFrame os s).2 = e0 :: t ∧
        e0.res = r ∧ ∀ e ∈ t, e.res = r ∧ e.created = false) := by
  obtain ⟨hF, hnone⟩ := beginRendering_initial obj s hq hd hw
  obtain ⟨r, hFl, hnext, hdec⟩ :=
    runLookups_fresh obj os (beginRendering false s) hF hnone hin
  exact ⟨r, by simpa [runFrame] using endRendering_between obj r _ hFl hnext,
    by simpa [runFrame] using hdec⟩

/-- C1: for a sequence of consecutive frames (each bracketed by
`beginRendering`/`endRendering`) run with unused-resource checking enabled
and no clear request in between, from any well-formed renderer state, every
`getOrCreateVertexResource` lookup of an object that is looked up in every
frame returns one and the same resource object `r`, and no lookup after
the first allocates a new resource for that object. -/
theorem getOrCreateVertexResource_stable_across_frames
    (s : CacheState) (fs : List (List ObjId)) (obj : ObjId)
    (hnoclear : s.isResourceClearRequested = false)
    (hcheck : s.doUnusedResourceCheck = true)
    (hwf : WellFormedMaps s)
    (hall : ∀ f ∈ fs, obj ∈ f) (hne : fs ≠ []) :
    ∃ r, objEntries obj (runFrames fs s).2 ≠ [] ∧
      (∀ e ∈ objEntries obj (runFrames fs s).2, e.res = r) ∧
      (∀ e ∈ (objEntries obj (runFrames fs s).2).tail, e.created = false) := by
  cases fs with
  | nil => exact absurd rfl hne
  | cons f fs =>
    obtain ⟨r, hB, e0, t, ht, he0, hta⟩ :=
      runFrame_first obj f s hnoclear hcheck hwf (hall f (by simp))
    have hrest := runFrames_steady obj r fs (runFrame f s).1 hB
      (fun g hg => hall g (by simp [hg]))
    have happ : objEntries obj (runFrames (f :: fs) s).2 =
        e0 :: (t ++ objEntries obj (runFrames fs (runFrame f s).1).2) := by
      show objEntries obj ((runFrame f s).2 ++
        (runFrames fs (runFrame f s).1).2) = _
      rw [objEntries_append, ht]
      rfl
    refine ⟨r, ?_, ?_, ?_⟩
    · rw [happ]
      exact List.cons_ne_nil _ _
    · intro e he
      rw [happ] at he
      rcases List.mem_cons.mp he with he | he
      · subst he
        exact he0
      · rcases List.mem_append.mp he with he | he
        · exact (hta e he).1
        · obtain ⟨hmem, heobj⟩ := mem_objEntries he
          exact (hrest e hmem heobj).1
    · intro e he
      rw [happ] at he
      rcases List.mem_append.mp he with he | he
      · exact (hta e he).2
      · obtain ⟨hmem, heobj⟩ := mem_objEntries he
        exact (hrest e hmem heobj).2

/-- A freshly initialized renderer state, as left by
`GLSLSceneRendererImpl::initialize` once the initial clear request of
`initializeGL` has been consumed. -/
def initSample : CacheState :=
  { currentMap := []
    nextMap := []
    hasValidNextResourceMap := false
    isResourceClearRequested := false
    doUnusedResourceCheck := true
    isCheckingUnusedResources := false
    nextNewResId := 0 }

/-- Witness for C1: three consecutive frames each looking object `7` up
(the middle one also queries object `8`) from a freshly initialized
renderer; all recorded lookups of `7` agree on one resource and only the
first one allocates. -/
theorem getOrCreateVertexResource_stable_witness :
    WellFormedMaps initSample ∧
    ∃ r, objEntries 7 (runFrames [[7], [7, 8], [7]] initSample).2 ≠ [] ∧
      (∀ e ∈ objEntries 7 (runFrames [[7], [7, 8], [7]] initSample).2,
        e.res = r) ∧
      (∀ e ∈ (objEntries 7 (runFrames [[7], [7, 8], [7]] initSample).2).tail,
        e.created = false) :=
  ⟨⟨fun _ => rfl, fun _ => rfl⟩,
    getOrCreateVertexResource_stable_across_frames initSample
      [[7], [7, 8], [7]] 7 rfl rfl ⟨fun _ => rfl, fun _ => rfl⟩
      (by decide) (by decide)⟩

/-! ## Scene-graph traversal

Model of the rendering dispatch of `GLSLSceneRendererImpl`: the node kinds
registered in `initialize`, the model-matrix stack, the pick-id protocol
(`pushPickId`/`popPickId`/`setPickColor`), the deferred transparent pass
(`transparentRenderingFunctions`/`renderTransparentObjects`), the deferred
outline pass (`postRenderingFunctions`) and the early-exit guards of
`renderShape`/`renderPointSet`/`renderLineSet`.

Model matrices (`Affine3`) are taken from an arbitrary monoid `M`:
`renderTransform` composes by multiplication and `renderOverlay` pushes
the identity, and nothing else of the traversal inspects a matrix.  GL
draw calls (`drawVertexResource` in `renderShapeMain`/`renderPlot`) are
recorded as events; pure GL state switching (programs, materials,
textures, cull face, point size, line width, blending, stencil) is not
modelled since no claim observes it, and the normal-visualization overlay
of `renderShapeMain` is modelled in its disabled default state. -/

/-- Model of `SgMaterial` (the part the renderer dispatch reads). -/
structure SgMaterialM where
  transparency : ℚ
deriving DecidableEq

/-- Model of `SgMesh` as seen by the traversal guards: an optional vertex
array (`hasVertices()` is true iff the array exists and is nonempty). -/
structure SgMeshM where
  vertices : Option (List (ℚ × ℚ × ℚ))
deriving DecidableEq

/-- `SgObject::hasVertices` for the mesh model. -/
def SgMeshM.hasVertices (m : SgMeshM) : Bool :=
  match m.vertices with
  | some vs => !vs.isEmpty
  | none => false

/-- `hasVertices` of an optional plot vertex array. -/
def hasVerticesOpt (vs : Option (List (ℚ × ℚ × ℚ))) : Bool :=
  match vs with
  | some l => !l.isEmpty
  | none => false

/-- The scene-graph node kinds whose handlers `initialize` registers into
the dispatch table. -/
inductive SgNodeM (M : Type) where
  | group (children : List (SgNodeM M))
  | transform (T : M) (children : List (SgNodeM M))
  | switchNode (isTurnedOn : Bool) (children : List (SgNodeM M))
  | unpickableGroup (children : List (SgNodeM M))
  | shape (mesh : Option SgMeshM) (material : Option SgMaterialM)
  | pointSet (vertices : Option (List (ℚ × ℚ × ℚ)))
  | lineSet (vertices : Option (List (ℚ × ℚ × ℚ))) (lines : List (Nat × Nat))
  | overlay (children : List (SgNodeM M))
  | outlineGroup (children : List (SgNodeM M))
  | simplifiedGroup (children : List (SgNodeM M))

/-- A recorded GL draw: `drawVertexResource` issued for a shape mesh
(`renderShapeMain`) or for a plot (`renderPlot` with `GL_POINTS` or
`GL_LINES`). -/
inductive EventM (M : Type) where
  | drawShape (mesh : SgMeshM) (material : Option SgMaterialM) (position : M)
      (pickId : Nat)
  | drawPlot (isLineSet : Bool) (vertices : List (ℚ × ℚ × ℚ)) (position : M)
deriving DecidableEq

/-- The data captured by one deferred transparent closure
(`[this, shape, position, pickId](){ renderShapeMain(...); }`). -/
structure TransparentEntry (M : Type) where
  mesh : SgMeshM
  material : Option SgMaterialM
  position : M
  pickId : Nat
deriving DecidableEq

/-- The data captured by one deferred outline closure
(`[this, outline, T](){ renderOutlineGroupMain(outline, T); }`). -/
structure PostEntry (M : Type) where
  children : List (SgNodeM M)
  position : M

/-- The traversal-relevant state of `GLSLSceneRendererImpl`: the pass
flags, the model-matrix stack (head is `back()`), the pick path state, the
current `solidColorProgram` color, the recorded draw events and the two
deferred-function queues. -/
structure RenderStateM (M : Type) where
  isPicking : Bool
  isRenderingShadowMap : Bool
  isActuallyRendering : Bool
  modelMatrixStack : List M
  currentNodePath : List (SgNodeM M)
  pickingNodePathList : List (List (SgNodeM M))
  pickColor : ℚ × ℚ × ℚ
  events : List (EventM M)
  transparentFns : List (TransparentEntry M)
  postFns : List (PostEntry M)

/-- `modelMatrixStack.back()`; the stack is never empty while rendering
(`renderCamera` seeds it with the identity). -/
def RenderStateM.back {M : Type} [Monoid M] (s : RenderStateM M) : M :=
  s.modelMatrixStack.headD 1

/-- `GLSLSceneRendererImpl::setPickColor`: encode the id into the flat
RGB color of the solid-color program (low byte in red, next in green,
next in blue, each scaled to [0,1]).  `SHOW_IMAGE_FOR_PICKING` is false. -/
def setPickColorM {M : Type} (id : Nat) (s : RenderStateM M) :
    RenderStateM M :=
  { s with pickColor :=
      (((id &&& 0xff : Nat) : ℚ) / 255,
       (((id >>> 8) &&& 0xff : Nat) : ℚ) / 255,
       (((id >>> 16) &&& 0xff : Nat) : ℚ) / 255) }

/-- `GLSLSceneRendererImpl::pushPickId`: outside a picking pass it returns
0 and does nothing; during one it assigns `pickingNodePathList.size() + 1`,
extends the current node path, records a copy of the extended path, and
(unless `doSetColor` is false) sets the pick color. -/
def pushPickIdM {M : Type} (node : SgNodeM M) (doSetColor : Bool)
    (s : RenderStateM M) : Nat × RenderStateM M :=
  if s.isPicking then
    let id := s.pickingNodePathList.length + 1
    let path := s.currentNodePath ++ [node]
    let s1 :=
      { s with
          currentNodePath := path
          pickingNodePathList := s.pickingNodePathList ++ [path] }
    (id, if doSetColor then setPickColorM id s1 else s1)
  else (0, s)

/-- `GLSLSceneRendererImpl::popPickId`: pop the current node path while
picking. -/
def popPickIdM {M : Type} (s : RenderStateM M) : RenderStateM M :=
  if s.isPicking then { s with currentNodePath := s.currentNodePath.dropLast }
  else s

/-- `GLSLSceneRendererImpl::renderShapeMain`: set the pick color while
picking (materials/textures otherwise, not modelled), then draw the mesh
resource at the captured position.  The normal-visualization branch is
modelled disabled. -/
def renderShapeMainM {M : Type} (mesh : SgMeshM)
    (material : Option SgMaterialM) (position : M) (pickId : Nat)
    (s : RenderStateM M) : RenderStateM M :=
  let s1 := if s.isPicking then setPickColorM pickId s else s
  { s1 with events :=
      s1.events ++ [EventM.drawShape mesh material position pickId] }

/-- `GLSLSceneRendererImpl::renderPlot` (shared by point and line sets):
push a pick id, draw the expanded vertices at `back()`, pop. -/
def renderPlotM {M : Type} [Monoid M] (node : SgNodeM M) (isLineSet : Bool)
    (vertices : List (ℚ × ℚ × ℚ)) (s : RenderStateM M) : RenderStateM M :=
  let p := pushPickIdM node true s
  let s1 := p.2
  let s2 :=
    { s1 with events :=
        s1.events ++ [EventM.drawPlot isLineSet vertices s1.back] }
  popPickIdM s2

/-- `getLineSetVertices`: expand each line segment into its two
endpoints. -/
def getLineSetVerticesM (vs : List (ℚ × ℚ × ℚ)) (lines : List (Nat × Nat)) :
    List (ℚ × ℚ × ℚ) :=
  lines.flatMap (fun l => [vs.getD l.1 (0, 0, 0), vs.getD l.2 (0, 0, 0)])

/-- The test `material && material->transparency() > 0.0` of
`renderShape`. -/
def matIsTransparent (material : Option SgMaterialM) : Bool :=
  match material with
  | some m => decide (0 < m.transparency)
  | none => false

mutual

/-- The polymorphic dispatch `renderingFunctions.dispatch`, one case per
registered node kind. -/
def renderNode {M : Type} [Monoid M] (n : SgNodeM M) (s : RenderStateM M) :
    RenderStateM M :=
  match n with
  | SgNodeM.group cs => renderGroupBody (SgNodeM.group cs) cs s
  | SgNodeM.transform T cs =>
      -- renderTransform: push back() * T, pick id, children, pop both
      let s1 :=
        { s with modelMatrixStack := (s.back * T) :: s.modelMatrixStack }
      let p := pushPickIdM (SgNodeM.transform T cs) true s1
      let s2 := renderList cs p.2
      let s3 := popPickIdM s2
      { s3 with modelMatrixStack := s3.modelMatrixStack.tail }
  | SgNodeM.switchNode isOn cs =>
      -- renderSwitch: render as a group when turned on
      if isOn then renderGroupBody (SgNodeM.switchNode isOn cs) cs s else s
  | SgNodeM.unpickableGroup cs =>
      -- renderUnpickableGroup: skipped entirely while picking
      if s.isPicking then s
      else renderGroupBody (SgNodeM.unpickableGroup cs) cs s
  | SgNodeM.shape mesh material =>
      renderShapeM (SgNodeM.shape mesh material) mesh material s
  | SgNodeM.pointSet vs =>
      -- renderPointSet: guard, then renderPlot with GL_POINTS
      if !hasVerticesOpt vs then s
      else renderPlotM (SgNodeM.pointSet vs) false (vs.getD []) s
  | SgNodeM.lineSet vs lines =>
      -- renderLineSet: shadow-map guard, empty guards, then GL_LINES plot
      if s.isRenderingShadowMap then s
      else if !hasVerticesOpt vs || decide (lines.length ≤ 0) then s
      else
        renderPlotM (SgNodeM.lineSet vs lines) true
          (getLineSetVerticesM (vs.getD []) lines) s
  | SgNodeM.overlay cs =>
      -- renderOverlay: only when actually rendering; push the identity
      -- model matrix, render as a group, pop (the projection-matrix
      -- save/restore is not modelled, no claim observes it)
      if !s.isActuallyRendering then s
      else
        let s1 := { s with modelMatrixStack := (1 : M) :: s.modelMatrixStack }
        let s2 := renderGroupBody (SgNodeM.overlay cs) cs s1
        { s2 with modelMatrixStack := s2.modelMatrixStack.tail }
  | SgNodeM.outlineGroup cs =>
      -- renderOutlineGroup: rendered as a plain group while picking,
      -- otherwise deferred to the post-rendering pass
      if s.isPicking then renderGroupBody (SgNodeM.outlineGroup cs) cs s
      else
        { s with postFns :=
            s.postFns ++ [{ children := cs, position := s.back }] }
  | SgNodeM.simplifiedGroup cs =>
      -- renderSimplifiedRenderingGroup: skipped in shadow maps; the
      -- program push/pop and light re-upload are not modelled
      if s.isRenderingShadowMap then s else renderList cs s

/-- `renderGroup` (also used by the switch/unpickable/overlay/outline
paths): push a pick id for the group node, render the children, pop. -/
def renderGroupBody {M : Type} [Monoid M] (n : SgNodeM M)
    (cs : List (SgNodeM M)) (s : RenderStateM M) : RenderStateM M :=
  let p := pushPickIdM n true s
  let s1 := renderList cs p.2
  popPickIdM s1

/-- `renderShape`: nothing happens for an absent or empty mesh; a shape
with positive material transparency is deferred (outside shadow-map
rendering) with its captured position and pick id; otherwise it is drawn
in place. -/
def renderShapeM {M : Type} [Monoid M] (n : SgNodeM M) (mesh : Option SgMeshM)
    (material : Option SgMaterialM) (s : RenderStateM M) : RenderStateM M :=
  match mesh with
  | none => s
  | some m =>
      if m.hasVertices then
        if matIsTransparent material then
          if !s.isRenderingShadowMap then
            let position := s.back
            let p := pushPickIdM n false s
            let s1 :=
              { p.2 with transparentFns :=
                  p.2.transparentFns ++
                    [{ mesh := m, material := material, position := position,
                       pickId := p.1 }] }
            popPickIdM s1
          else s
        else
          let p := pushPickIdM n false s
          let s1 := renderShapeMainM m material s.back p.1 p.2
          popPickIdM s1
      else s

/-- `renderChildNodes`: dispatch each child in order. -/
def renderList {M : Type} [Monoid M] (l : List (SgNodeM M))
    (s : RenderStateM M) : RenderStateM M :=
  match l with
  | [] => s
  | c :: rest => renderList rest (renderNode c s)

end

/-- `renderOutlineGroupMain`: push the captured position onto the matrix
stack, render the children twice (the stencil fill pass and the thick-line
outline pass; the stencil and program settings between them are pure GL
state and not modelled), pop. -/
def renderOutlineGroupMainM {M : Type} [Monoid M] (cs : List (SgNodeM M))
    (T : M) (s : RenderStateM M) : RenderStateM M :=
  let s1 := { s with modelMatrixStack := T :: s.modelMatrixStack }
  let s2 := renderList cs s1
  let s3 := renderList cs s2
  { s3 with modelMatrixStack := s3.modelMatrixStack.tail }

/-- The start of `renderScene`: `renderCamera` reseeds the model-matrix
stack with the identity, and the two deferred-function queues are
cleared. -/
def renderSceneStartM {M : Type} [Monoid M] (s : RenderStateM M) :
    RenderStateM M :=
  { s with modelMatrixStack := [1], transparentFns := [], postFns := [] }

/-- The traversal and post-rendering phases of `renderScene`: dispatch the
scene root, then run the deferred outline closures and clear the queue.
The C++ loop iterates over `postRenderingFunctions` with a range-for and
clears it afterwards; an entry appended during the loop (a nested outline
group) would invalidate the iterator, so the model runs the snapshot taken
at loop entry. -/
def renderMainAndPostM {M : Type} [Monoid M] (root : SgNodeM M)
    (s : RenderStateM M) : RenderStateM M :=
  let s1 := renderNode root (renderSceneStartM s)
  let s2 := s1.postFns.foldl
    (fun st e => renderOutlineGroupMainM e.children e.position st) s1
  { s2 with postFns := [] }

/-- The draw event a deferred transparent closure records when it runs. -/
def transparentEvent {M : Type} (f : TransparentEntry M) : EventM M :=
  EventM.drawShape f.mesh f.material f.position f.pickId

/-- `renderTransparentObjects`: run the deferred closures in their
recorded (original traversal) order — no depth sort — then clear the
queue.  The blend/depth-mask toggles around the loop are pure GL state and
not modelled. -/
def renderTransparentObjectsM {M : Type} (s : RenderStateM M) :
    RenderStateM M :=
  let s1 := s.transparentFns.foldl
    (fun st f => renderShapeMainM f.mesh f.material f.position f.pickId st) s
  { s1 with transparentFns := [] }

/-- `renderScene` (with a current camera): traversal and post phases, then
the transparent pass whenever deferrals exist. -/
def renderSceneM {M : Type} [Monoid M] (root : SgNodeM M)
    (s : RenderStateM M) : RenderStateM M :=
  let s2 := renderMainAndPostM root s
  if s2.transparentFns.isEmpty then s2 else renderTransparentObjectsM s2

/-- Whether a recorded draw event is the draw of a shape whose material
has strictly positive transparency. -/
def isTransparentShapeDraw {M : Type} : EventM M → Bool
  | EventM.drawShape _ material _ _ => matIsTransparent material
  | EventM.drawPlot _ _ _ => false

/-! ### The traversal-step invariant

`TraversalStep s s'` collects what every node-rendering function
guarantees about its overall effect: matrix stack and pick path restored,
pass flags untouched, events only appended and never a transparent-shape
draw, transparent deferrals only appended and always transparent shapes,
post deferrals only appended. -/

structure TraversalStep {M : Type} (s s' : RenderStateM M) : Prop where
  stack : s'.modelMatrixStack = s.modelMatrixStack
  path : s'.currentNodePath = s.currentNodePath
  picking : s'.isPicking = s.isPicking
  shadow : s'.isRenderingShadowMap = s.isRenderingShadowMap
  actually : s'.isActuallyRendering = s.isActuallyRendering
  events : ∃ es, s'.events = s.events ++ es ∧
    ∀ e ∈ es, isTransparentShapeDraw e = false
  transparent : ∃ ds, s'.transparentFns = s.transparentFns ++ ds ∧
    ∀ f ∈ ds, matIsTransparent f.material = true
  post : ∃ ps, s'.postFns = s.postFns ++ ps

theorem traversalStep_refl {M : Type} (s : RenderStateM M) :
    TraversalStep s s := by
  refine ⟨rfl, rfl, rfl, rfl, rfl, ⟨[], ?_, ?_⟩, ⟨[], ?_, ?_⟩, ⟨[], ?_⟩⟩ <;>
    simp

theorem TraversalStep.trans {M : Type} {s t u : RenderStateM M}
    (h1 : TraversalStep s t) (h2 : TraversalStep t u) : TraversalStep s u := by
  obtain ⟨es1, he1, hp1⟩ := h1.events
  obtain ⟨es2, he2, hp2⟩ := h2.events
  obtain ⟨ds1, hd1, hq1⟩ := h1.transparent
  obtain ⟨ds2, hd2, hq2⟩ := h2.transparent
  obtain ⟨ps1, hps1⟩ := h1.post
  obtain ⟨ps2, hps2⟩ := h2.post
  refine ⟨h2.stack.trans h1.stack, h2.path.trans h1.path,
    h2.picking.trans h1.picking, h2.shadow.trans h1.shadow,
    h2.actually.trans h1.actually,
    ⟨es1 ++ es2, ?_, ?_⟩, ⟨ds1 ++ ds2, ?_, ?_⟩, ⟨ps1 ++ ps2, ?_⟩⟩
  · rw [he2, he1, List.append_assoc]
  · intro e he
    rcases List.mem_append.mp he with h | h
    · exact hp1 e h
    · exact hp2 e h
  · rw [hd2, hd1, List.append_assoc]
  · intro f hf
    rcases List.mem_append.mp hf with h | h
    · exact hq1 f h
    · exact hq2 f h
  · rw [hps2, hps1, List.append_assoc]

/-- Fields of the state produced by `pushPickIdM` during a picking pass. -/
theorem pushPickIdM_of_picking {M : Type} (node : SgNodeM M)
    (doSetColor : Bool) (s : RenderStateM M) (hp : s.isPicking = true) :
    (pushPickIdM node doSetColor s).1 = s.pickingNodePathList.length + 1 ∧
    (pushPickIdM node doSetColor s).2.modelMatrixStack = s.modelMatrixStack ∧
    (pushPickIdM node doSetColor s).2.currentNodePath =
      s.currentNodePath ++ [node] ∧
    (pushPickIdM node doSetColor s).2.pickingNodePathList =
      s.pickingNodePathList ++ [s.currentNodePath ++ [node]] ∧
    (pushPickIdM node doSetColor s).2.isPicking = true ∧
    (pushPickIdM node doSetColor s).2.isRenderingShadowMap =
      s.isRenderingShadowMap ∧
    (pushPickIdM node doSetColor s).2.isActuallyRendering =
      s.isActuallyRendering ∧
    (pushPickIdM node doSetColor s).2.events = s.events ∧
    (pushPickIdM node doSetColor s).2.transparentFns = s.transparentFns ∧
    (pushPickIdM node doSetColor s).2.postFns = s.postFns := by
  cases doSetColor <;> simp [pushPickIdM, setPickColorM, hp]

/-- `pushPickIdM` outside a picking pass returns 0 and the state
unchanged. -/
theorem pushPickIdM_of_not_picking {M : Type} (node : SgNodeM M)
    (doSetColor : Bool) (s : RenderStateM M) (hp : s.isPicking = false) :
    pushPickIdM node doSetColor s = (0, s) := by
  simp [pushPickIdM, hp]

theorem popPickIdM_of_picking {M : Type} (s : RenderStateM M)
    (hp : s.isPicking = true) :
    popPickIdM s = { s with currentNodePath := s.currentNodePath.dropLast } := by
  simp [popPickIdM, hp]

theorem popPickIdM_of_not_picking {M : Type} (s : RenderStateM M)
    (hp : s.isPicking = false) : popPickIdM s = s := by
  simp [popPickIdM, hp]

/-- The push-body-pop bracket of the rendering functions: whenever the
body (which may use the returned pick id) satisfies the traversal-step
invariant, so does the bracketed call. -/
theorem traversalStep_bracket {M : Type} [Monoid M] (node : SgNodeM M)
    (doSetColor : Bool) (body : Nat → RenderStateM M → RenderStateM M)
    (hbody : ∀ k t, TraversalStep t (body k t)) (s : RenderStateM M) :
    TraversalStep s
      (popPickIdM
        (body (pushPickIdM node doSetColor s).1
          (pushPickIdM node doSetColor s).2)) := by
  cases hp : s.isPicking
  · rw [pushPickIdM_of_not_picking node doSetColor s hp]
    have hb := hbody 0 s
    rw [popPickIdM_of_not_picking _ (hb.picking.trans hp)]
    exact hb
  · obtain ⟨hid, hstack, hpath, hlist, hpick, hshadow, hact, hev, htr, hpo⟩ :=
      pushPickIdM_of_picking node doSetColor s hp
    have hb := hbody (pushPickIdM node doSetColor s).1
      (pushPickIdM node doSetColor s).2
    rw [popPickIdM_of_picking _ (hb.picking.trans hpick)]
    obtain ⟨es, he, hpe⟩ := hb.events
    obtain ⟨ds, hd, hqd⟩ := hb.transparent
    obtain ⟨ps, hps⟩ := hb.post
    refine ⟨hb.stack.trans hstack, ?_, hb.picking.trans (hpick.trans hp.symm),
      hb.shadow.trans hshadow, hb.actually.trans hact,
      ⟨es, by rw [he, hev], hpe⟩, ⟨ds, by rw [hd, htr], hqd⟩,
      ⟨ps, by rw [hps, hpo]⟩⟩
    show (body _ _).currentNodePath.dropLast = s.currentNodePath
    rw [hb.path, hpath, List.dropLast_concat]

/-- `setPickColor` only touches the program color. -/
theorem setPickColorM_step {M : Type} (k : Nat) (s : RenderStateM M) :
    TraversalStep s (setPickColorM k s) := by
  refine ⟨rfl, rfl, rfl, rfl, rfl, ⟨[], ?_, ?_⟩, ⟨[], ?_, ?_⟩, ⟨[], ?_⟩⟩ <;>
    simp [setPickColorM]

/-- `renderShapeMain` on a non-transparent material records exactly one
non-transparent draw event. -/
theorem renderShapeMainM_step {M : Type} (m : SgMeshM)
    (material : Option SgMaterialM) (pos : M) (k : Nat) (s : RenderStateM M)
    (hmat : matIsTransparent material = false) :
    TraversalStep s (renderShapeMainM m material pos k s) := by
  unfold renderShapeMainM
  have h1 : TraversalStep s (if s.isPicking then setPickColorM k s else s) := by
    cases hp : s.isPicking
    · simpa [hp] using traversalStep_refl s
    · simpa [hp] using setPickColorM_step k s
  refine h1.trans ?_
  refine ⟨rfl, rfl, rfl, rfl, rfl,
    ⟨[EventM.drawShape m material pos k], rfl, ?_⟩,
    ⟨[], by simp, by simp⟩, ⟨[], by simp⟩⟩
  intro e he
  rw [List.mem_singleton] at he
  subst he
  simp [isTransparentShapeDraw, hmat]

/-- `renderPlot` satisfies the traversal-step invariant: it records one
plot draw inside a pick-id bracket. -/
theorem renderPlotM_step {M : Type} [Monoid M] (node : SgNodeM M)
    (isLineSet : Bool) (vertices : List (ℚ × ℚ × ℚ)) (s : RenderStateM M) :
    TraversalStep s (renderPlotM node isLineSet vertices s) := by
  unfold renderPlotM
  refine traversalStep_bracket node true
    (fun _ st =>
      { st with events :=
          st.events ++ [EventM.drawPlot isLineSet vertices st.back] })
    (fun _ t => ?_) s
  refine ⟨rfl, rfl, rfl, rfl, rfl,
    ⟨[EventM.drawPlot isLineSet vertices t.back], rfl, ?_⟩,
    ⟨[], by simp, by simp⟩, ⟨[], by simp⟩⟩
  intro e he
  rw [List.mem_singleton] at he
  subst he
  rfl

/-- `renderShape` satisfies the traversal-step invariant in each of its
branches (guard exit, deferral, direct draw). -/
theorem renderShapeM_step {M : Type} [Monoid M] (n : SgNodeM M)
    (mesh : Option SgMeshM) (material : Option SgMaterialM)
    (s : RenderStateM M) : TraversalStep s (renderShapeM n mesh material s) := by
  cases mesh with
  | none => exact traversalStep_refl s
  | some m =>
    unfold renderShapeM
    cases hv : m.hasVertices
    · simpa [hv] using traversalStep_refl s
    · cases hmat : matIsTransparent material
      · simp only [hv, hmat, if_true, Bool.false_eq_true, if_false]
        exact traversalStep_bracket n false
          (fun k st => renderShapeMainM m material s.back k st)
          (fun k t => renderShapeMainM_step m material s.back k t hmat) s
      · cases hsh : s.isRenderingShadowMap
        · simp only [hv, hmat, hsh, Bool.not_false, if_true]
          refine traversalStep_bracket n false
            (fun k st =>
              { st with transparentFns :=
                  st.transparentFns ++
                    [{ mesh := m, material := material, position := s.back,
                       pickId := k }] })
            (fun k t => ?_) s
          refine ⟨rfl, rfl, rfl, rfl, rfl, ⟨[], by simp, by simp⟩,
            ⟨[{ mesh := m, material := material, position := s.back,
                pickId := k }], rfl, ?_⟩, ⟨[], by simp⟩⟩
          intro f hf
          rw [List.mem_singleton] at hf
          subst hf
          exact hmat
        · simp only [hv, hmat, hsh, Bool.not_true, if_true,
            Bool.false_eq_true, if_false]
          exact traversalStep_refl s

/-- The push-matrix/body/pop-matrix bracket of `renderTransform` and
`renderOverlay` turns a traversal step of the body into one of the whole
call. -/
theorem traversalStep_matrix_bracket {M : Type} [Monoid M] (T : M)
    (body : RenderStateM M → RenderStateM M)
    (hbody : ∀ t, TraversalStep t (body t)) (s : RenderStateM M) :
    TraversalStep s
      { body { s with modelMatrixStack := T :: s.modelMatrixStack } with
          modelMatrixStack :=
            (body { s with modelMatrixStack := T :: s.modelMatrixStack
              }).modelMatrixStack.tail } := by
  have hb := hbody { s with modelMatrixStack := T :: s.modelMatrixStack }
  obtain ⟨es, he, hpe⟩ := hb.events
  obtain ⟨ds, hd, hqd⟩ := hb.transparent
  obtain ⟨ps, hps⟩ := hb.post
  refine ⟨?_, ?_, ?_, ?_, ?_, ⟨es, ?_, hpe⟩, ⟨ds, ?_, hqd⟩, ⟨ps, ?_⟩⟩
  · show (body _).modelMatrixStack.tail = s.modelMatrixStack
    rw [hb.stack]
    rfl
  · show (body _).currentNodePath = s.currentNodePath
    rw [hb.path]
  · show (body _).isPicking = s.isPicking
    rw [hb.picking]
  · show (body _).isRenderingShadowMap = s.isRenderingShadowMap
    rw [hb.shadow]
  · show (body _).isActuallyRendering = s.isActuallyRendering
    rw [hb.actually]
  · show (body _).events = s.events ++ es
    rw [he]
  · show (body _).transparentFns = s.transparentFns ++ ds
    rw [hd]
  · show (body _).postFns = s.postFns ++ ps
    rw [hps]

/-- Every node-rendering function, the group body, and the child loop
satisfy the traversal-step invariant (joint strong induction on the
size of the dispatched scene fragment). -/
theorem traversal_master {M : Type} [Monoid M] (k : Nat) :
    (∀ l : List (SgNodeM M), sizeOf l ≤ k →
      ∀ s, TraversalStep s (renderList l s)) ∧
    (∀ (n : SgNodeM M) (cs : List (SgNodeM M)), sizeOf cs ≤ k →
      ∀ s, TraversalStep s (renderGroupBody n cs s)) ∧
    (∀ n : SgNodeM M, sizeOf n ≤ k → ∀ s, TraversalStep s (renderNode n s)) := by
  induction k using Nat.strong_induction_on with
  | _ k IH =>
  have hlist : ∀ l : List (SgNodeM M), sizeOf l ≤ k →
      ∀ s, TraversalStep s (renderList l s) := by
    intro l hl s
    cases l with
    | nil => simpa [renderList] using traversalStep_refl s
    | cons c rest =>
      have hsz : sizeOf (c :: rest) = 1 + sizeOf c + sizeOf rest := by simp
      have hck : sizeOf c < k := by omega
      have hrk : sizeOf rest < k := by
        have : 0 < sizeOf c := by cases c <;> simp
        omega
      have h1 := (IH (sizeOf c) hck).2.2 c le_rfl s
      have h2 := (IH (sizeOf rest) hrk).1 rest le_rfl (renderNode c s)
      simpa [renderList] using h1.trans h2
  have hgroup : ∀ (n : SgNodeM M) (cs : List (SgNodeM M)), sizeOf cs ≤ k →
      ∀ s, TraversalStep s (renderGroupBody n cs s) := by
    intro n cs hcs s
    unfold renderGroupBody
    exact traversalStep_bracket n true (fun _ st => renderList cs st)
      (fun _ t => hlist cs hcs t) s
  refine ⟨hlist, hgroup, ?_⟩
  intro n hn s
  cases n with
  | group cs =>
    have hcs : sizeOf cs ≤ k := by simp at hn; omega
    simpa [renderNode] using hgroup (SgNodeM.group cs) cs hcs s
  | transform T cs =>
    have hcs : sizeOf cs ≤ k := by simp at hn; omega
    simp only [renderNode]
    exact traversalStep_matrix_bracket (s.back * T)
      (fun st =>
        popPickIdM
          (renderList cs (pushPickIdM (SgNodeM.transform T cs) true st).2))
      (fun t => traversalStep_bracket (SgNodeM.transform T cs) true
        (fun _ st => renderList cs st) (fun _ u => hlist cs hcs u) t) s
  | switchNode isOn cs =>
    have hcs : sizeOf cs ≤ k := by simp at hn; omega
    simp only [renderNode]
    split
    · exact hgroup (SgNodeM.switchNode isOn cs) cs hcs s
    · exact traversalStep_refl s
  | unpickableGroup cs =>
    have hcs : sizeOf cs ≤ k := by simp at hn; omega
    simp only [renderNode]
    split
    · exact traversalStep_refl s
    · exact hgroup (SgNodeM.unpickableGroup cs) cs hcs s
  | shape mesh material =>
    simpa [renderNode] using
      renderShapeM_step (SgNodeM.shape mesh material) mesh material s
  | pointSet vs =>
    simp only [renderNode]
    split
    · exact traversalStep_refl s
    · exact renderPlotM_step (SgNodeM.pointSet vs) false (vs.getD []) s
  | lineSet vs lines =>
    simp only [renderNode]
    split
    · exact traversalStep_refl s
    · split
      · exact traversalStep_refl s
      · exact renderPlotM_step (SgNodeM.lineSet vs lines) true
          (getLineSetVerticesM (vs.getD []) lines) s
  | overlay cs =>
    have hcs : sizeOf cs ≤ k := by simp at hn; omega
    simp only [renderNode]
    split
    · exact traversalStep_refl s
    · exact traversalStep_matrix_bracket (1 : M)
        (fun st => renderGroupBody (SgNodeM.overlay cs) cs st)
        (fun t => hgroup (SgNodeM.overlay cs) cs hcs t) s
  | outlineGroup cs =>
    have hcs : sizeOf cs ≤ k := by simp at hn; omega
    simp only [renderNode]
    split
    · exact hgroup (SgNodeM.outlineGroup cs) cs hcs s
    · exact ⟨rfl, rfl, rfl, rfl, rfl, ⟨[], by simp, by simp⟩,
        ⟨[], by simp, by simp⟩,
        ⟨[{ children := cs, position := s.back }], rfl⟩⟩
  | simplifiedGroup cs =>
    have hcs : sizeOf cs ≤ k := by simp at hn; omega
    simp only [renderNode]
    split
    · exact traversalStep_refl s
    · exact hlist cs hcs s

/-- The traversal-step invariant for the dispatch of any node. -/
theorem renderNode_step {M : Type} [Monoid M] (n : SgNodeM M)
    (s : RenderStateM M) : TraversalStep s (renderNode n s) :=
  (traversal_master (sizeOf n)).2.2 n le_rfl s

/-- The traversal-step invariant for the dispatch of any child list. -/
theorem renderList_step {M : Type} [Monoid M] (l : List (SgNodeM M))
    (s : RenderStateM M) : TraversalStep s (renderList l s) :=
  (traversal_master (sizeOf l)).1 l le_rfl s

/-- The deferred outline pass satisfies the traversal-step invariant. -/
theorem renderOutlineGroupMainM_step {M : Type} [Monoid M]
    (cs : List (SgNodeM M)) (T : M) (s : RenderStateM M) :
    TraversalStep s (renderOutlineGroupMainM cs T s) := by
  unfold renderOutlineGroupMainM
  exact traversalStep_matrix_bracket T
    (fun st => renderList cs (renderList cs st))
    (fun t => (renderList_step cs t).trans
      (renderList_step cs (renderList cs t))) s

/-- Folding the deferred outline closures satisfies the traversal-step
invariant. -/
theorem postFold_step {M : Type} [Monoid M] :
    ∀ (ps : List (PostEntry M)) (s : RenderStateM M),
      TraversalStep s
        (ps.foldl
          (fun st e => renderOutlineGroupMainM e.children e.position st) s)
  | [], s => by simpa using traversalStep_refl s
  | e :: rest, s => by
      have h1 := renderOutlineGroupMainM_step e.children e.position s
      have h2 := postFold_step rest
        (renderOutlineGroupMainM e.children e.position s)
      simpa [List.foldl_cons] using h1.trans h2

/-- The traversal and post phases append only non-transparent draw events,
and defer only transparent shapes. -/
theorem renderMainAndPostM_spec {M : Type} [Monoid M] (root : SgNodeM M)
    (s : RenderStateM M) :
    ∃ es, (renderMainAndPostM root s).events = s.events ++ es ∧
      (∀ e ∈ es, isTransparentShapeDraw e = false) ∧
      (∀ f ∈ (renderMainAndPostM root s).transparentFns,
        matIsTransparent f.material = true) := by
  have hstep := (renderNode_step root (renderSceneStartM s)).trans
    (postFold_step (renderNode root (renderSceneStartM s)).postFns
      (renderNode root (renderSceneStartM s)))
  obtain ⟨es, he, hpe⟩ := hstep.events
  obtain ⟨ds, hd, hqd⟩ := hstep.transparent
  refine ⟨es, he, hpe, ?_⟩
  intro f hf
  rw [show (renderMainAndPostM root s).transparentFns =
      (renderSceneStartM s).transparentFns ++ ds from hd] at hf
  simp only [renderSceneStartM, List.nil_append] at hf
  exact hqd f hf

/-- Running the deferred transparent closures appends exactly their draw
events in deferral order. -/
theorem transparentFold_events {M : Type} :
    ∀ (l : List (TransparentEntry M)) (s : RenderStateM M),
      (l.foldl
        (fun st f =>
          renderShapeMainM f.mesh f.material f.position f.pickId st) s).events
        = s.events ++ l.map transparentEvent
  | [], s => by simp
  | f :: rest, s => by
      have ih := transparentFold_events rest
        (renderShapeMainM f.mesh f.material f.position f.pickId s)
      have hone :
          (renderShapeMainM f.mesh f.material f.position f.pickId s).events
            = s.events ++ [transparentEvent f] := by
        unfold renderShapeMainM
        cases hp : s.isPicking <;> simp [hp, setPickColorM, transparentEvent]
      simp [List.foldl_cons, ih, hone]

/-- `renderTransparentObjects` draws the deferred list in order and clears
it. -/
theorem renderTransparentObjectsM_spec {M : Type} (s : RenderStateM M) :
    (renderTransparentObjectsM s).events =
      s.events ++ s.transparentFns.map transparentEvent ∧
    (renderTransparentObjectsM s).transparentFns = [] := by
  unfold renderTransparentObjectsM
  exact ⟨transparentFold_events s.transparentFns s, rfl⟩

/-- `renderShape` on a drawable transparent shape (outside shadow-map
rendering) draws nothing and appends exactly one deferred entry carrying
the mesh, material, captured position and pick id. -/
theorem renderShape_transparent_defers {M : Type} [Monoid M] (mesh : SgMeshM)
    (material : Option SgMaterialM) (t : RenderStateM M)
    (hmat : matIsTransparent material = true) (hv : mesh.hasVertices = true)
    (hsh : t.isRenderingShadowMap = false) :
    (renderNode (SgNodeM.shape (some mesh) material) t).events = t.events ∧
    (renderNode (SgNodeM.shape (some mesh) material) t).transparentFns =
      t.transparentFns ++
        [{ mesh := mesh, material := material, position := t.back,
           pickId :=
             (pushPickIdM (SgNodeM.shape (some mesh) material) false t).1 }] := by
  simp only [renderNode]
  unfold renderShapeM
  simp only [hv, hmat, hsh, Bool.not_false, if_true]
  cases hp : t.isPicking <;>
    simp [pushPickIdM, popPickIdM, setPickColorM, hp]

/-- C3: in a frame, a drawable shape whose material transparency is
strictly positive is never drawn during the scene-graph traversal but
deferred (with its traversal position and pick id); `renderScene` first
records the traversal/post events — none of which is a transparent-shape
draw — and then the deferred transparent draws, exactly in their original
deferral (traversal) order. -/
theorem transparent_deferred_drawn_after_opaque {M : Type} [Monoid M]
    (root : SgNodeM M) (s : RenderStateM M) :
    (∀ (mesh : SgMeshM) (material : Option SgMaterialM) (t : RenderStateM M),
      matIsTransparent material = true → mesh.hasVertices = true →
      t.isRenderingShadowMap = false →
      (renderNode (SgNodeM.shape (some mesh) material) t).events = t.events ∧
      (renderNode (SgNodeM.shape (some mesh) material) t).transparentFns =
        t.transparentFns ++
          [{ mesh := mesh, material := material, position := t.back,
             pickId :=
               (pushPickIdM (SgNodeM.shape (some mesh) material) false t).1 }]) ∧
    (renderSceneM root s).events =
      (renderMainAndPostM root s).events ++
        (renderMainAndPostM root s).transparentFns.map transparentEvent ∧
    (s.events = [] →
      ∀ e ∈ (renderMainAndPostM root s).events,
        isTransparentShapeDraw e = false) ∧
    (∀ f ∈ (renderMainAndPostM root s).transparentFns,
      matIsTransparent f.material = true) := by
  obtain ⟨es, he, hpe, hq⟩ := renderMainAndPostM_spec root s
  refine ⟨fun mesh material t hmat hv hsh =>
    renderShape_transparent_defers mesh material t hmat hv hsh, ?_, ?_, hq⟩
  · unfold renderSceneM
    cases hemp : (renderMainAndPostM root s).transparentFns.isEmpty
    · simp only [hemp, Bool.false_eq_true, if_false]
      exact (renderTransparentObjectsM_spec (renderMainAndPostM root s)).1
    · simp only [hemp, if_true]
      rw [List.isEmpty_iff] at hemp
      simp [hemp]
  · intro hev e hee
    rw [he, hev, List.nil_append] at hee
    exact hpe e hee

/-- A base rendering state: main pass of a render frame, camera already
applied, nothing recorded yet. -/
def baseState : RenderStateM ℚ :=
  { isPicking := false
    isRenderingShadowMap := false
    isActuallyRendering := true
    modelMatrixStack := [1]
    currentNodePath := []
    pickingNodePathList := []
    pickColor := (0, 0, 0)
    events := []
    transparentFns := []
    postFns := [] }

/-- Witness for C3: a scene with an opaque and a transparent shape under a
group, rendered from the base state. -/
theorem transparent_deferred_witness :
    (∀ (mesh : SgMeshM) (material : Option SgMaterialM)
        (t : RenderStateM ℚ),
      matIsTransparent material = true → mesh.hasVertices = true →
      t.isRenderingShadowMap = false →
      (renderNode (SgNodeM.shape (some mesh) material) t).events = t.events ∧
      (renderNode (SgNodeM.shape (some mesh) material) t).transparentFns =
        t.transparentFns ++
          [{ mesh := mesh, material := material, position := t.back,
             pickId :=
               (pushPickIdM (SgNodeM.shape (some mesh) material) false t).1 }]) ∧
    (renderSceneM
        (SgNodeM.group
          [SgNodeM.shape (some ⟨some [(0, 0, 0)]⟩) (some ⟨(1 : ℚ) / 2⟩),
           SgNodeM.shape (some ⟨some [(0, 0, 0)]⟩) (some ⟨0⟩)])
        baseState).events =
      (renderMainAndPostM
          (SgNodeM.group
            [SgNodeM.shape (some ⟨some [(0, 0, 0)]⟩) (some ⟨(1 : ℚ) / 2⟩),
             SgNodeM.shape (some ⟨some [(0, 0, 0)]⟩) (some ⟨0⟩)])
          baseState).events ++
        (renderMainAndPostM
            (SgNodeM.group
              [SgNodeM.shape (some ⟨some [(0, 0, 0)]⟩) (some ⟨(1 : ℚ) / 2⟩),
               SgNodeM.shape (some ⟨some [(0, 0, 0)]⟩) (some ⟨0⟩)])
            baseState).transparentFns.map transparentEvent ∧
    (baseState.events = [] →
      ∀ e ∈ (renderMainAndPostM
          (SgNodeM.group
            [SgNodeM.shape (some ⟨some [(0, 0, 0)]⟩) (some ⟨(1 : ℚ) / 2⟩),
             SgNodeM.shape (some ⟨some [(0, 0, 0)]⟩) (some ⟨0⟩)])
          baseState).events,
        isTransparentShapeDraw e = false) ∧
    (∀ f ∈ (renderMainAndPostM
        (SgNodeM.group
          [SgNodeM.shape (some ⟨some [(0, 0, 0)]⟩) (some ⟨(1 : ℚ) / 2⟩),
           SgNodeM.shape (some ⟨some [(0, 0, 0)]⟩) (some ⟨0⟩)])
        baseState).transparentFns,
      matIsTransparent f.material = true) :=
  transparent_deferred_drawn_after_opaque
    (SgNodeM.group
      [SgNodeM.shape (some ⟨some [(0, 0, 0)]⟩) (some ⟨(1 : ℚ) / 2⟩),
       SgNodeM.shape (some ⟨some [(0, 0, 0)]⟩) (some ⟨0⟩)])
    baseState

/-- C10: every node-rendering function preserves the traversal state: the
model-matrix stack keeps its depth and its top element, and the current
pick node path is restored — every push is matched by exactly one pop. -/
theorem renderNode_preserves_traversal_state {M : Type} [Monoid M]
    (n : SgNodeM M) (s : RenderStateM M) :
    (renderNode n s).modelMatrixStack.length = s.modelMatrixStack.length ∧
    (renderNode n s).modelMatrixStack.headD 1 = s.modelMatrixStack.headD 1 ∧
    (renderNode n s).currentNodePath = s.currentNodePath := by
  have h := renderNode_step n s
  exact ⟨by rw [h.stack], by rw [h.stack], h.path⟩

/-- C9: a shape with an absent mesh or a mesh without vertices draws
nothing and defers nothing (the whole state is unchanged); a point set
without vertices returns without drawing; a line set without vertices or
without lines returns without drawing.  All four guards are total
functions: no exception is modelled or needed. -/
theorem empty_geometry_is_skipped {M : Type} [Monoid M] (s : RenderStateM M) :
    (∀ material, renderNode (SgNodeM.shape none material) s = s) ∧
    (∀ mesh material, mesh.hasVertices = false →
      renderNode (SgNodeM.shape (some mesh) material) s = s) ∧
    (∀ vs, hasVerticesOpt vs = false →
      renderNode (SgNodeM.pointSet vs) s = s) ∧
    (∀ vs lines, hasVerticesOpt vs = false ∨ lines.length = 0 →
      renderNode (SgNodeM.lineSet vs lines) s = s) := by
  refine ⟨?_, ?_, ?_, ?_⟩
  · intro material
    simp [renderNode, renderShapeM]
  · intro mesh material h
    simp [renderNode, renderShapeM, h]
  · intro vs h
    simp [renderNode, h]
  · intro vs lines h
    cases hsh : s.isRenderingShadowMap
    · rcases h with h | h <;> simp [renderNode, hsh, h]
    · simp [renderNode, hsh]

/-- Witness for C9: the guards at the base state on a mesh with an empty
vertex array, an absent mesh, an empty point set and a line set without
lines. -/
theorem empty_geometry_witness :
    (∀ material,
      renderNode (SgNodeM.shape none material) baseState = baseState) ∧
    (∀ mesh material, mesh.hasVertices = false →
      renderNode (SgNodeM.shape (some mesh) material) baseState = baseState) ∧
    (∀ vs, hasVerticesOpt vs = false →
      renderNode (SgNodeM.pointSet vs) baseState = baseState) ∧
    (∀ vs lines, hasVerticesOpt vs = false ∨ lines.length = 0 →
      renderNode (SgNodeM.lineSet vs lines) baseState = baseState) :=
  empty_geometry_is_skipped baseState

/-- Index lemma: the element just appended sits at the old length. -/
theorem getD_append_length {α : Type} (l : List α) (x d : α) :
    (l ++ [x]).getD l.length d = x := by
  induction l with
  | nil => rfl
  | cons a t ih => simp [ih]

/-- C4: outside a picking pass, `pushPickId` returns 0 and changes nothing
(no color write, no recording) and `popPickId` is a no-op; during a
picking pass, `pushPickId` returns `pickingNodePathList.size() + 1` (so
the k-th call of the pass returns k, ids starting at 1 with 0 reserved),
extends the current ancestor path by the node, records the extended path
as the entry of that id (at index id − 1), sets the flat pick color
encoding of the id unless color setting is suppressed, draws nothing, and
the following `popPickId` removes the node from the path again. -/
theorem pushPickId_protocol {M : Type} (node : SgNodeM M)
    (doSetColor : Bool) (s : RenderStateM M) :
    (s.isPicking = false →
      pushPickIdM node doSetColor s = (0, s) ∧ popPickIdM s = s) ∧
    (s.isPicking = true →
      (pushPickIdM node doSetColor s).1 = s.pickingNodePathList.length + 1 ∧
      (pushPickIdM node doSetColor s).2.currentNodePath =
        s.currentNodePath ++ [node] ∧
      (pushPickIdM node doSetColor s).2.pickingNodePathList.length =
        s.pickingNodePathList.length + 1 ∧
      (pushPickIdM node doSetColor s).2.pickingNodePathList.getD
          ((pushPickIdM node doSetColor s).1 - 1) [] =
        s.currentNodePath ++ [node] ∧
      (doSetColor = true →
        (pushPickIdM node doSetColor s).2.pickColor =
          ((((s.pickingNodePathList.length + 1) &&& 0xff : Nat) : ℚ) / 255,
           ((((s.pickingNodePathList.length + 1) >>> 8) &&& 0xff : Nat) : ℚ) /
             255,
           ((((s.pickingNodePathList.length + 1) >>> 16) &&& 0xff : Nat) : ℚ) /
             255)) ∧
      (doSetColor = false →
        (pushPickIdM node doSetColor s).2.pickColor = s.pickColor) ∧
      (pushPickIdM node doSetColor s).2.events = s.events ∧
      popPickIdM (pushPickIdM node doSetColor s).2 =
        { (pushPickIdM node doSetColor s).2 with
            currentNodePath := s.currentNodePath }) := by
  constructor
  · intro hp
    exact ⟨pushPickIdM_of_not_picking node doSetColor s hp,
      popPickIdM_of_not_picking s hp⟩
  · intro hp
    obtain ⟨hid, hstack, hpath, hlist, hpick, _, _, hev, _, _⟩ :=
      pushPickIdM_of_picking node doSetColor s hp
    refine ⟨hid, hpath, ?_, ?_, ?_, ?_, hev, ?_⟩
    · rw [hlist]
      simp
    · rw [hlist, hid]
      simp [getD_append_length s.pickingNodePathList
        (s.currentNodePath ++ [node]) []]
    · intro hc
      subst hc
      simp [pushPickIdM, setPickColorM, hp]
    · intro hc
      subst hc
      simp [pushPickIdM, hp]
    · rw [popPickIdM_of_picking _ hpick, hpath, List.dropLast_concat]

/-- A concrete picking-pass state holding one recorded path. -/
def pickSampleState : RenderStateM ℚ :=
  { baseState with
      isPicking := true
      pickingNodePathList := [[SgNodeM.group []]]
      currentNodePath := [SgNodeM.group []] }

/-- Witness for C4: the protocol at a concrete picking-pass state with one
already-recorded path, pushing a shape node with color setting enabled. -/
theorem pushPickId_protocol_witness :
    (pickSampleState.isPicking = false →
      pushPickIdM (SgNodeM.shape none none) true pickSampleState =
        (0, pickSampleState) ∧
      popPickIdM pickSampleState = pickSampleState) ∧
    (pickSampleState.isPicking = true →
      (pushPickIdM (SgNodeM.shape none none) true pickSampleState).1 =
        pickSampleState.pickingNodePathList.length + 1 ∧
      (pushPickIdM (SgNodeM.shape none none) true
          pickSampleState).2.currentNodePath =
        pickSampleState.currentNodePath ++ [SgNodeM.shape none none] ∧
      (pushPickIdM (SgNodeM.shape none none) true
          pickSampleState).2.pickingNodePathList.length =
        pickSampleState.pickingNodePathList.length + 1 ∧
      (pushPickIdM (SgNodeM.shape none none) true
          pickSampleState).2.pickingNodePathList.getD
          ((pushPickIdM (SgNodeM.shape none none) true pickSampleState).1 - 1)
          [] =
        pickSampleState.currentNodePath ++ [SgNodeM.shape none none] ∧
      (true = true →
        (pushPickIdM (SgNodeM.shape none none) true
            pickSampleState).2.pickColor =
          ((((pickSampleState.pickingNodePathList.length + 1) &&& 0xff :
              Nat) : ℚ) / 255,
           ((((pickSampleState.pickingNodePathList.length + 1) >>> 8) &&&
               0xff : Nat) : ℚ) / 255,
           ((((pickSampleState.pickingNodePathList.length + 1) >>> 16) &&&
               0xff : Nat) : ℚ) / 255)) ∧
      (true = false →
        (pushPickIdM (SgNodeM.shape none none) true
            pickSampleState).2.pickColor = pickSampleState.pickColor) ∧
      (pushPickIdM (SgNodeM.shape none none) true pickSampleState).2.events =
        pickSampleState.events ∧
      popPickIdM (pushPickIdM (SgNodeM.shape none none) true
          pickSampleState).2 =
        { (pushPickIdM (SgNodeM.shape none none) true pickSampleState).2 with
            currentNodePath := pickSampleState.currentNodePath }) :=
  pushPickId_protocol (SgNodeM.shape none none) true pickSampleState

/-! ## Pick resolution (doPick) -/

/-- The id `doPick` decodes from the read-back pixel:
`(color[0]*255) + ((int)(color[1]*255) << 8) + ((int)(color[2]*255) << 16)
- 1` in `unsigned int` arithmetic, the arguments being the pixel's byte
values. -/
def decodePickId (r g b : Nat) : Nat :=
  (r + (g <<< 8) + (b <<< 16) + (2 ^ 32 - 1)) % 2 ^ 32

/-- One single-pixel readback: the color bytes and the depth value. -/
structure PickReadback where
  red : Nat
  green : Nat
  blue : Nat
  depth : ℚ
deriving DecidableEq

/-- The `pickedNodePath` member as `doPick` leaves it: empty unless the
decoded id is strictly positive and strictly below the size of
`pickingNodePathList` and the unprojection of the pixel succeeds, in which
case it is the recorded path of that id.  `GLSceneRenderer::unproject`
lives in the base class outside this translation unit; `doPick` treats it
as fallible (its result guards the path assignment), so it is passed in as
a fallible function of the depth. -/
def doPickedNodePath {P : Type} (paths : List (List P)) (px : PickReadback)
    (unproject : ℚ → Option (ℚ × ℚ × ℚ)) : List P :=
  if 0 < decodePickId px.red px.green px.blue ∧
      decodePickId px.red px.green px.blue < paths.length then
    match unproject px.depth with
    | some _ => paths.getD (decodePickId px.red px.green px.blue) []
    | none => []
  else []

/-- The result of `doPick`: `!pickedNodePath.empty()` together with the
picked path. -/
def doPickResolve {P : Type} (paths : List (List P)) (px : PickReadback)
    (unproject : ℚ → Option (ℚ × ℚ × ℚ)) : Bool × List P :=
  (!(doPickedNodePath paths px unproject).isEmpty,
    doPickedNodePath paths px unproject)

/-- C5 counterexample: a readback decoding to id 2 with three recorded
(nonempty) paths — the id is neither 0 nor out of range — still reports no
pick when the unprojection of the pixel fails, so "no pick exactly when
the id is 0 or out of range" does not hold. -/
theorem doPick_reports_none_despite_valid_id :
    decodePickId 3 0 0 = 2 ∧ 0 < 2 ∧
    2 < ([[7], [7], [7]] : List (List Nat)).length ∧
    (doPickResolve [[7], [7], [7]] ⟨3, 0, 0, (1 : ℚ) / 2⟩
      (fun _ => none)).1 = false := by
  refine ⟨by decide, by decide, by decide, ?_⟩
  rfl

/-- C5 amended: `doPick` reports a pick — returning true together with the
node path recorded for the decoded id — exactly when the decoded id is
strictly positive, strictly below the size of the pick-entry list, and the
unprojection of the pixel succeeds; in every other case (id 0, id out of
range, or unprojection failure) it returns false with an empty picked node
path.  The recorded paths are nonempty because every entry is an extended
ancestor path. -/
theorem doPick_found_iff {P : Type} (paths : List (List P))
    (px : PickReadback) (unproject : ℚ → Option (ℚ × ℚ × ℚ))
    (hpaths : ∀ p ∈ paths, p ≠ []) :
    ((doPickResolve paths px unproject).1 = true ↔
      (0 < decodePickId px.red px.green px.blue ∧
       decodePickId px.red px.green px.blue < paths.length ∧
       (unproject px.depth).isSome = true)) ∧
    ((doPickResolve paths px unproject).1 = true →
      (doPickResolve paths px unproject).2 =
        paths.getD (decodePickId px.red px.green px.blue) []) ∧
    ((doPickResolve paths px unproject).1 = false →
      (doPickResolve paths px unproject).2 = []) := by
  by_cases hcond : 0 < decodePickId px.red px.green px.blue ∧
      decodePickId px.red px.green px.blue < paths.length
  · cases hu : unproject px.depth with
    | none =>
      have hpath : doPickedNodePath paths px unproject = [] := by
        unfold doPickedNodePath
        rw [if_pos hcond, hu]
      refine ⟨?_, ?_, ?_⟩
      · simp only [doPickResolve, hpath]
        simp [hu]
      · simp only [doPickResolve, hpath]
        intro h
        simp at h
      · intro _
        simp only [doPickResolve, hpath]
    | some pt =>
      have hpath : doPickedNodePath paths px unproject =
          paths.getD (decodePickId px.red px.green px.blue) [] := by
        unfold doPickedNodePath
        rw [if_pos hcond, hu]
      have hne : paths.getD (decodePickId px.red px.green px.blue) [] ≠
          [] := by
        have hmem : paths.getD (decodePickId px.red px.green px.blue) [] ∈
            paths := by
          rw [List.getD_eq_getElem paths [] hcond.2]
          exact List.getElem_mem hcond.2
        exact hpaths _ hmem
      refine ⟨?_, ?_, ?_⟩
      · simp only [doPickResolve, hpath, hu, Option.isSome_some]
        constructor
        · exact fun _ => ⟨hcond.1, hcond.2, trivial⟩
        · intro _
          rw [Bool.not_eq_true', List.isEmpty_eq_false]
          exact hne
      · intro _
        simp only [doPickResolve, hpath]
      · simp only [doPickResolve, hpath]
        rw [Bool.not_eq_false', List.isEmpty_eq_true]
        exact fun hfalse => absurd hfalse hne
  · have hpath : doPickedNodePath paths px unproject = [] := by
      unfold doPickedNodePath
      rw [if_neg hcond]
    refine ⟨?_, ?_, ?_⟩
    · simp only [doPickResolve, hpath]
      constructor
      · intro h
        simp at h
      · intro h
        exact absurd ⟨h.1, h.2.1⟩ hcond
    · simp only [doPickResolve, hpath]
      intro h
      simp at h
    · intro _
      simp only [doPickResolve, hpath]

/-- Witness for C5 amended: three nonempty recorded paths, a pixel
decoding to id 2, and a successful unprojection. -/
theorem doPick_found_iff_witness :
    (∀ p ∈ ([[1], [2], [3]] : List (List Nat)), p ≠ []) ∧
    (((doPickResolve [[1], [2], [3]] ⟨3, 0, 0, (1 : ℚ) / 2⟩
        (fun _ => some (0, 0, 0))).1 = true ↔
      (0 < decodePickId 3 0 0 ∧
       decodePickId 3 0 0 < ([[1], [2], [3]] : List (List Nat)).length ∧
       (some ((0 : ℚ), (0 : ℚ), (0 : ℚ))).isSome = true)) ∧
    ((doPickResolve [[1], [2], [3]] ⟨3, 0, 0, (1 : ℚ) / 2⟩
        (fun _ => some (0, 0, 0))).1 = true →
      (doPickResolve [[1], [2], [3]] ⟨3, 0, 0, (1 : ℚ) / 2⟩
        (fun _ => some (0, 0, 0))).2 =
        ([[1], [2], [3]] : List (List Nat)).getD (decodePickId 3 0 0) []) ∧
    ((doPickResolve [[1], [2], [3]] ⟨3, 0, 0, (1 : ℚ) / 2⟩
        (fun _ => some (0, 0, 0))).1 = false →
      (doPickResolve [[1], [2], [3]] ⟨3, 0, 0, (1 : ℚ) / 2⟩
        (fun _ => some (0, 0, 0))).2 = [])) :=
  ⟨by decide,
    doPick_found_iff [[1], [2], [3]] ⟨3, 0, 0, (1 : ℚ) / 2⟩
      (fun _ => some (0, 0, 0)) (by decide)⟩

/-! ## Texture load decision (loadTextureImage) -/

/-- The part of `cnoid::Image` that `loadTextureImage` reads for its
decisions. -/
structure ImageM where
  width : Nat
  height : Nat
  numComponents : Nat
deriving DecidableEq

/-- The decision-relevant fields of `TextureResource`. -/
structure TextureResourceM where
  isLoaded : Bool
  isImageUpdateNeeded : Bool
  width : Nat
  height : Nat
  numComponents : Nat
deriving DecidableEq

/-- `TextureResource::isSameSizeAs`. -/
def TextureResourceM.isSameSizeAs (r : TextureResourceM) (img : ImageM) :
    Bool :=
  r.width == img.width && r.height == img.height &&
    r.numComponents == img.numComponents

/-- The GL call `loadTextureImage` ends up issuing for the storage. -/
inductive TexLoadAction where
  | subImage
  | newImage
  | unsupported
deriving DecidableEq

/-- `GLSLSceneRendererImpl::loadTextureImage`: the format switch rejects
channel counts outside 1..4 (clearing the resource); then
`resource->numComponents = image.numComponents()` is assigned BEFORE the
`resource->isLoaded && resource->isSameSizeAs(image)` test; on reuse only
`glTexSubImage2D` runs, otherwise `glTexImage2D` (re)allocates and the
recorded size is updated.  The power-of-two rescaling inside the
allocation branch only affects the uploaded pixels, not the decision or
the recorded state. -/
def loadTextureImage (r : TextureResourceM) (img : ImageM) :
    TextureResourceM × TexLoadAction :=
  if img.numComponents = 0 ∨ 4 < img.numComponents then
    ({ r with isLoaded := false }, TexLoadAction.unsupported)
  else
    let r1 := { r with numComponents := img.numComponents }
    if r1.isLoaded && r1.isSameSizeAs img then
      ({ r1 with isImageUpdateNeeded := false }, TexLoadAction.subImage)
    else
      ({ r1 with
          isLoaded := true
          width := img.width
          height := img.height
          isImageUpdateNeeded := false }, TexLoadAction.newImage)

/-- C8: because `numComponents` is overwritten with the new image's value
before `isSameSizeAs` runs, a loaded 2×2 3-channel resource is reused
(sub-image update) for a 2×2 1-channel image even though the channel
counts differ — the recorded channel count never influences the reuse
decision. -/
theorem loadTextureImage_reuses_despite_channel_change :
    (loadTextureImage
        { isLoaded := true, isImageUpdateNeeded := false, width := 2,
          height := 2, numComponents := 3 }
        { width := 2, height := 2, numComponents := 1 }).2 =
      TexLoadAction.subImage ∧
    ({ isLoaded := true, isImageUpdateNeeded := false, width := 2,
       height := 2, numComponents := 3 } :
        TextureResourceM).numComponents ≠
      ({ width := 2, height := 2, numComponents := 1 } :
        ImageM).numComponents := by
  decide

/-- The reuse decision of `loadTextureImage` in general: for a supported
image, storage is reused iff the resource is loaded and width and height
match — the recorded channel count cannot affect the test since it was
just overwritten. -/
theorem loadTextureImage_reuse_condition (r : TextureResourceM)
    (img : ImageM) (h1 : img.numComponents ≠ 0)
    (h2 : img.numComponents ≤ 4) :
    (loadTextureImage r img).2 = TexLoadAction.subImage ↔
      (r.isLoaded = true ∧ r.width = img.width ∧ r.height = img.height) := by
  unfold loadTextureImage
  rw [if_neg (by omega)]
  by_cases hc : r.isLoaded = true ∧ r.width = img.width ∧
      r.height = img.height
  · obtain ⟨ha, hb, hcc⟩ := hc
    simp [TextureResourceM.isSameSizeAs, ha, hb, hcc]
  · simp only [iff_false, hc]
    rcases Decidable.not_and_iff_or_not.mp hc with h | h
    · have : r.isLoaded = false := by
        cases hl : r.isLoaded
        · rfl
        · exact absurd hl h
      simp [TextureResourceM.isSameSizeAs, this]
    · rcases Decidable.not_and_iff_or_not.mp h with h | h <;>
        simp [TextureResourceM.isSameSizeAs, h]

/-- Witness for the reuse-condition theorem at a loaded 4×4 resource and a
4×4 2-channel image. -/
theorem loadTextureImage_reuse_condition_witness :
    ((loadTextureImage
        { isLoaded := true, isImageUpdateNeeded := true, width := 4,
          height := 4, numComponents := 4 }
        { width := 4, height := 4, numComponents := 2 }).2 =
      TexLoadAction.subImage ↔
      (({ isLoaded := true, isImageUpdateNeeded := true, width := 4,
          height := 4, numComponents := 4 } : TextureResourceM).isLoaded
          = true ∧
       ({ isLoaded := true, isImageUpdateNeeded := true, width := 4,
          height := 4, numComponents := 4 } : TextureResourceM).width =
         ({ width := 4, height := 4, numComponents := 2 } : ImageM).width ∧
       ({ isLoaded := true, isImageUpdateNeeded := true, width := 4,
          height := 4, numComponents := 4 } : TextureResourceM).height =
         ({ width := 4, height := 4, numComponents := 2 } : ImageM).height)) :=
  loadTextureImage_reuse_condition
    { isLoaded := true, isImageUpdateNeeded := true, width := 4,
      height := 4, numComponents := 4 }
    { width := 4, height := 4, numComponents := 2 } (by decide) (by decide)

/-! ## Packed 10-bit normal encoding (writeMeshNormalsPacked) -/

/-- `NormalArrayWrapper::append` of `writeMeshNormalsPacked`: one packed
word per normal,
`zs << 29 | ((uint32_t)(v.z*511 + (zs<<9)) & 511) << 20 |
 ys << 19 | ((uint32_t)(v.y*511 + (ys<<9)) & 511) << 10 |
 xs << 9  | ((uint32_t)(v.x*511 + (xs<<9)) & 511)`,
with the float arithmetic carried out exactly over `ℚ`, the `(uint32_t)`
cast of the (here nonnegative) float value rendered as the floor, and the
final `uint32_t(...)` wrap as the mod `2 ^ 32`. -/
def packNormal (x y z : ℚ) : ℕ :=
  let xs : ℕ := if x < 0 then 1 else 0
  let ys : ℕ := if y < 0 then 1 else 0
  let zs : ℕ := if z < 0 then 1 else 0
  (zs <<< 29 |||
      (Int.toNat ⌊z * (511 : ℚ) + ((zs <<< 9 : ℕ) : ℚ)⌋ &&& 511) <<< 20 |||
      ys <<< 19 |||
      (Int.toNat ⌊y * (511 : ℚ) + ((ys <<< 9 : ℕ) : ℚ)⌋ &&& 511) <<< 10 |||
      xs <<< 9 |||
      (Int.toNat ⌊x * (511 : ℚ) + ((xs <<< 9 : ℕ) : ℚ)⌋ &&& 511)) % 2 ^ 32

/-- One ten-bit field of `append` as it sits before being shifted into
place: `s << 9 | ((uint32_t)(v * 511 + (s << 9)) & 511)` with
`s = (v < 0)`. -/
def packComponent (v : ℚ) : ℕ :=
  let s : ℕ := if v < 0 then 1 else 0
  s <<< 9 ||| (Int.toNat ⌊v * (511 : ℚ) + ((s <<< 9 : ℕ) : ℚ)⌋ &&& 511)

/-- One component decode of `NormalArrayWrapper::get`: bit 9 selects the
sign, the minus branch is `((int)(p & 511) - 512) / 512.0f`, the plus
branch `(p & 511) / 511.0f`. -/
def unpackComponent (p : ℕ) : ℚ :=
  if p &&& 512 ≠ 0 then (((p &&& 511 : ℕ) : ℚ) - 512) / 512
  else ((p &&& 511 : ℕ) : ℚ) / 511

/-- `NormalArrayWrapper::get`: the three components are decoded in order
from the packed word, which is shifted right by ten bits after each. -/
def unpackNormal (p : ℕ) : ℚ × ℚ × ℚ :=
  (unpackComponent p, unpackComponent (p >>> 10),
    unpackComponent (p >>> 10 >>> 10))

/-- Masking with 511 is reduction mod 512. -/
theorem and_511_eq (N : ℕ) : N &&& 511 = N % 512 := by
  have h := Nat.and_pow_two_sub_one_eq_mod N 9
  norm_num at h
  exact h

/-- Masking with 512 isolates bit 9. -/
theorem and_512_eq (N : ℕ) : N &&& 512 = N / 512 % 2 * 512 := by
  have h := Nat.and_two_pow N 9
  rw [Nat.testBit_to_div_mod] at h
  norm_num at h
  by_cases hb : N / 512 % 2 = 1
  · rw [decide_eq_true hb] at h
    simp only [Bool.toNat_true, one_mul] at h
    rw [h, hb, one_mul]
  · rw [decide_eq_false hb] at h
    simp only [Bool.toNat_false, zero_mul] at h
    have hb0 : N / 512 % 2 = 0 := by omega
    rw [h, hb0, zero_mul]

/-- Or of a multiple of `2 ^ k` with a value below `2 ^ k` is their sum. -/
theorem lor_eq_add_of_lt {X y : ℕ} (k : ℕ) (hX : X % 2 ^ k = 0)
    (hy : y < 2 ^ k) : X ||| y = X + y := by
  obtain ⟨a, ha⟩ := Nat.dvd_of_mod_eq_zero hX
  subst ha
  exact (Nat.mul_add_lt_is_or hy a).symm

/-- The six-term or of `append` splits into the three ten-bit fields. -/
theorem six_field_or (sz rz sy ry sx rx : ℕ) (_hsz : sz ≤ 1) (hsy : sy ≤ 1)
    (hsx : sx ≤ 1) :
    sz <<< 29 ||| (rz &&& 511) <<< 20 ||| sy <<< 19 ||| (ry &&& 511) <<< 10 |||
        sx <<< 9 ||| (rx &&& 511) =
      (sz <<< 9 ||| (rz &&& 511)) * 2 ^ 20 +
        (sy <<< 9 ||| (ry &&& 511)) * 2 ^ 10 + (sx <<< 9 ||| (rx &&& 511)) := by
  have hmz : rz &&& 511 ≤ 511 := Nat.and_le_right
  have hmy : ry &&& 511 ≤ 511 := Nat.and_le_right
  have hmx : rx &&& 511 ≤ 511 := Nat.and_le_right
  simp only [Nat.shiftLeft_eq]
  have e1 : sz * 2 ^ 29 ||| (rz &&& 511) * 2 ^ 20 =
      sz * 2 ^ 29 + (rz &&& 511) * 2 ^ 20 :=
    lor_eq_add_of_lt 29 (by omega) (by omega)
  have e2 : sz * 2 ^ 29 + (rz &&& 511) * 2 ^ 20 ||| sy * 2 ^ 19 =
      sz * 2 ^ 29 + (rz &&& 511) * 2 ^ 20 + sy * 2 ^ 19 :=
    lor_eq_add_of_lt 20 (by omega) (by omega)
  have e3 : sz * 2 ^ 29 + (rz &&& 511) * 2 ^ 20 + sy * 2 ^ 19 |||
        (ry &&& 511) * 2 ^ 10 =
      sz * 2 ^ 29 + (rz &&& 511) * 2 ^ 20 + sy * 2 ^ 19 +
        (ry &&& 511) * 2 ^ 10 :=
    lor_eq_add_of_lt 19 (by omega) (by omega)
  have e4 : sz * 2 ^ 29 + (rz &&& 511) * 2 ^ 20 + sy * 2 ^ 19 +
        (ry &&& 511) * 2 ^ 10 ||| sx * 2 ^ 9 =
      sz * 2 ^ 29 + (rz &&& 511) * 2 ^ 20 + sy * 2 ^ 19 +
        (ry &&& 511) * 2 ^ 10 + sx * 2 ^ 9 :=
    lor_eq_add_of_lt 10 (by omega) (by omega)
  have e5 : sz * 2 ^ 29 + (rz &&& 511) * 2 ^ 20 + sy * 2 ^ 19 +
        (ry &&& 511) * 2 ^ 10 + sx * 2 ^ 9 ||| (rx &&& 511) =
      sz * 2 ^ 29 + (rz &&& 511) * 2 ^ 20 + sy * 2 ^ 19 +
        (ry &&& 511) * 2 ^ 10 + sx * 2 ^ 9 + (rx &&& 511) :=
    lor_eq_add_of_lt 9 (by omega) (by omega)
  have e6 : sz * 2 ^ 9 ||| (rz &&& 511) = sz * 2 ^ 9 + (rz &&& 511) :=
    lor_eq_add_of_lt 9 (by omega) (by omega)
  have e7 : sy * 2 ^ 9 ||| (ry &&& 511) = sy * 2 ^ 9 + (ry &&& 511) :=
    lor_eq_add_of_lt 9 (by omega) (by omega)
  have e8 : sx * 2 ^ 9 ||| (rx &&& 511) = sx * 2 ^ 9 + (rx &&& 511) :=
    lor_eq_add_of_lt 9 (by omega) (by omega)
  rw [e1, e2, e3, e4, e5, e6, e7, e8]
  ring

/-- A packed component always fits in ten bits. -/
theorem packComponent_lt (v : ℚ) : packComponent v < 1024 := by
  have h : ∀ s r : ℕ, s ≤ 1 → s <<< 9 ||| (r &&& 511) < 1024 := by
    intro s r hs
    have h1 : s <<< 9 < 2 ^ 10 := by
      rw [Nat.shiftLeft_eq]
      omega
    have h2 : r &&& 511 ≤ 511 := Nat.and_le_right
    have h3 : r &&& 511 < 2 ^ 10 := by omega
    have h4 := Nat.or_lt_two_pow h1 h3
    omega
  simp only [packComponent]
  exact h _ _ (by split <;> omega)

/-- The packed word decomposes as the three component fields; in
particular the value is below `2 ^ 32`, so the `uint32_t` wrap is the
identity. -/
theorem packNormal_eq (x y z : ℚ) :
    packNormal x y z =
      packComponent z * 2 ^ 20 + packComponent y * 2 ^ 10 +
        packComponent x := by
  have hx := packComponent_lt x
  have hy := packComponent_lt y
  have hz := packComponent_lt z
  have hsx : (if x < 0 then (1 : ℕ) else 0) ≤ 1 := by split <;> omega
  have hsy : (if y < 0 then (1 : ℕ) else 0) ≤ 1 := by split <;> omega
  have hsz : (if z < 0 then (1 : ℕ) else 0) ≤ 1 := by split <;> omega
  simp only [packNormal, packComponent] at hx hy hz ⊢
  rw [six_field_or _ _ _ _ _ _ hsz hsy hsx]
  omega

/-- The decoded component depends only on the low ten bits. -/
theorem unpackComponent_congr {N M : ℕ} (h : N % 1024 = M % 1024) :
    unpackComponent N = unpackComponent M := by
  have h1 : N % 512 = M % 512 := by omega
  have h2 : N / 512 % 2 = M / 512 % 2 := by omega
  simp only [unpackComponent, and_511_eq, and_512_eq, h1, h2]

/-- Decoding the packed word splits into the three per-component
decodes. -/
theorem unpackNormal_packNormal (x y z : ℚ) :
    unpackNormal (packNormal x y z) =
      (unpackComponent (packComponent x), unpackComponent (packComponent y),
        unpackComponent (packComponent z)) := by
  have hx := packComponent_lt x
  have hy := packComponent_lt y
  have hz := packComponent_lt z
  have hN := packNormal_eq x y z
  have h2 : packNormal x y z >>> 10 =
      packComponent z * 2 ^ 10 + packComponent y := by
    rw [Nat.shiftRight_eq_div_pow]
    omega
  have h3 : packNormal x y z >>> 10 >>> 10 = packComponent z := by
    rw [h2, Nat.shiftRight_eq_div_pow]
    omega
  have e1 : unpackComponent (packNormal x y z) =
      unpackComponent (packComponent x) :=
    unpackComponent_congr (by omega)
  have e2 : unpackComponent (packNormal x y z >>> 10) =
      unpackComponent (packComponent y) := by
    refine unpackComponent_congr ?_
    rw [h2]
    omega
  simp only [unpackNormal, e1, e2, h3]

/-- Encoding then decoding one component of magnitude at most one moves
it by at most `1 / 511`. -/
theorem unpack_pack_close (v : ℚ) (h1 : -1 ≤ v) (h2 : v ≤ 1) :
    |unpackComponent (packComponent v) - v| ≤ 1 / 511 := by
  by_cases hv : v < 0
  · have hfl : ((⌊v * 511 + 512⌋ : ℤ) : ℚ) ≤ v * 511 + 512 := Int.floor_le _
    have hfu : v * 511 + 512 < ((⌊v * 511 + 512⌋ : ℤ) : ℚ) + 1 :=
      Int.lt_floor_add_one _
    have hn1 : (1 : ℤ) ≤ ⌊v * 511 + 512⌋ := by
      rw [Int.le_floor]
      push_cast
      linarith
    have hn2 : ⌊v * 511 + 512⌋ < 512 := by
      rw [Int.floor_lt]
      push_cast
      linarith
    have hsh : (1 <<< 9 : ℕ) = 512 := by norm_num [Nat.shiftLeft_eq]
    have hc512 : ((512 : ℕ) : ℚ) = 512 := by norm_num
    have hpc : packComponent v = 512 + (⌊v * 511 + 512⌋).toNat := by
      simp only [packComponent, if_pos hv, hsh, hc512]
      rw [and_511_eq]
      have hmod : (⌊v * 511 + 512⌋).toNat % 512 =
          (⌊v * 511 + 512⌋).toNat := by omega
      rw [hmod]
      exact lor_eq_add_of_lt 9 (by norm_num) (by omega)
    have hb : (512 + (⌊v * 511 + 512⌋).toNat) &&& 512 ≠ 0 := by
      rw [and_512_eq]
      omega
    have hm2 : (512 + (⌊v * 511 + 512⌋).toNat) &&& 511 =
        (⌊v * 511 + 512⌋).toNat := by
      rw [and_511_eq]
      omega
    have hcast : (((⌊v * 511 + 512⌋).toNat : ℕ) : ℚ) =
        ((⌊v * 511 + 512⌋ : ℤ) : ℚ) := by
      exact_mod_cast Int.toNat_of_nonneg (by omega)
    have hdu : unpackComponent (packComponent v) =
        (((⌊v * 511 + 512⌋ : ℤ) : ℚ) - 512) / 512 := by
      rw [hpc]
      unfold unpackComponent
      rw [if_pos hb, hm2, hcast]
    rw [hdu, abs_le]
    constructor <;> linarith
  · have hv0 : 0 ≤ v := le_of_not_lt hv
    have hfl : ((⌊v * 511⌋ : ℤ) : ℚ) ≤ v * 511 := Int.floor_le _
    have hfu : v * 511 < ((⌊v * 511⌋ : ℤ) : ℚ) + 1 := Int.lt_floor_add_one _
    have hn1 : (0 : ℤ) ≤ ⌊v * 511⌋ := by
      rw [Int.le_floor]
      push_cast
      linarith
    have hn2 : ⌊v * 511⌋ < 512 := by
      rw [Int.floor_lt]
      push_cast
      linarith
    have hsh0 : (0 <<< 9 : ℕ) = 0 := by norm_num [Nat.shiftLeft_eq]
    have hc0 : ((0 : ℕ) : ℚ) = 0 := by norm_num
    have hpc : packComponent v = (⌊v * 511⌋).toNat := by
      simp only [packComponent, if_neg hv, hsh0, hc0, add_zero]
      rw [Nat.zero_or, and_511_eq]
      omega
    have hb : ¬ ((⌊v * 511⌋).toNat &&& 512 ≠ 0) := by
      rw [and_512_eq]
      omega
    have hm2 : (⌊v * 511⌋).toNat &&& 511 = (⌊v * 511⌋).toNat := by
      rw [and_511_eq]
      omega
    have hcast : (((⌊v * 511⌋).toNat : ℕ) : ℚ) = ((⌊v * 511⌋ : ℤ) : ℚ) := by
      exact_mod_cast Int.toNat_of_nonneg hn1
    have hdu : unpackComponent (packComponent v) =
        ((⌊v * 511⌋ : ℤ) : ℚ) / 511 := by
      rw [hpc]
      unfold unpackComponent
      rw [if_neg hb, hm2, hcast]
    rw [hdu, abs_le]
    constructor <;> linarith

/-- C6: encoding a unit vector with the packed ten-bit normal format and
then decoding it (`NormalArrayWrapper.append` followed by `get` in
`writeMeshNormalsPacked`) yields a vector each of whose components
differs from the corresponding original component by at most `1/511`. -/
theorem packed_normal_roundtrip (x y z : ℚ)
    (hunit : x ^ 2 + y ^ 2 + z ^ 2 = 1) :
    |(unpackNormal (packNormal x y z)).1 - x| ≤ 1 / 511 ∧
    |(unpackNormal (packNormal x y z)).2.1 - y| ≤ 1 / 511 ∧
    |(unpackNormal (packNormal x y z)).2.2 - z| ≤ 1 / 511 := by
  have hx1 : -1 ≤ x := by
    nlinarith [sq_nonneg (x + 1), sq_nonneg y, sq_nonneg z]
  have hx2 : x ≤ 1 := by
    nlinarith [sq_nonneg (x - 1), sq_nonneg y, sq_nonneg z]
  have hy1 : -1 ≤ y := by
    nlinarith [sq_nonneg (y + 1), sq_nonneg x, sq_nonneg z]
  have hy2 : y ≤ 1 := by
    nlinarith [sq_nonneg (y - 1), sq_nonneg x, sq_nonneg z]
  have hz1 : -1 ≤ z := by
    nlinarith [sq_nonneg (z + 1), sq_nonneg x, sq_nonneg y]
  have hz2 : z ≤ 1 := by
    nlinarith [sq_nonneg (z - 1), sq_nonneg x, sq_nonneg y]
  rw [unpackNormal_packNormal]
  exact ⟨unpack_pack_close x hx1 hx2, unpack_pack_close y hy1 hy2,
    unpack_pack_close z hz1 hz2⟩

/-- Witness for C6 at the unit vector `(3/5, -4/5, 0)`. -/
theorem packed_normal_roundtrip_witness :
    ((3 : ℚ) / 5) ^ 2 + (-(4 : ℚ) / 5) ^ 2 + (0 : ℚ) ^ 2 = 1 ∧
    (|(unpackNormal (packNormal (3 / 5) (-(4 : ℚ) / 5) 0)).1 - 3 / 5| ≤
        1 / 511 ∧
      |(unpackNormal (packNormal (3 / 5) (-(4 : ℚ) / 5) 0)).2.1 -
          -(4 : ℚ) / 5| ≤ 1 / 511 ∧
      |(unpackNormal (packNormal (3 / 5) (-(4 : ℚ) / 5) 0)).2.2 - 0| ≤
        1 / 511) :=
  ⟨by norm_num,
    packed_normal_roundtrip (3 / 5) (-(4 : ℚ) / 5) 0 (by norm_num)⟩

/-! ## Flat shading (writeMeshNormalsSub) -/

/-- `Eigen::Vector3f` modelled exactly over `ℚ`. -/
abbrev Vector3f := ℚ × ℚ × ℚ

/-- Componentwise vector subtraction `a - b`. -/
def vsub (a b : Vector3f) : Vector3f :=
  (a.1 - b.1, a.2.1 - b.2.1, a.2.2 - b.2.2)

/-- Eigen's cross product `a.cross(b)`. -/
def vcross (a b : Vector3f) : Vector3f :=
  (a.2.1 * b.2.2 - a.2.2 * b.2.1,
    a.2.2 * b.1 - a.1 * b.2.2,
    a.1 * b.2.1 - a.2.1 * b.1)

/-- The fields of `SgMesh` that the flat-shading branch of
`writeMeshNormalsSub` reads: the vertex array and the flattened triangle
index list. -/
structure SgMeshGeom where
  vertices : List Vector3f
  triangleVertices : List ℕ

/-- `SgMesh::numTriangles`: the triangle-vertex list holds three indices
per triangle. -/
def SgMeshGeom.numTriangles (m : SgMeshGeom) : ℕ :=
  m.triangleVertices.length / 3

/-- `mesh->triangle(i)[j]` reads entry `3*i + j` of `triangleVertices`. -/
def SgMeshGeom.triVertex (m : SgMeshGeom) (k : ℕ) : ℕ :=
  m.triangleVertices.getD k 0

/-- Indexing the vertex array (`orgVertices[...]`). -/
def SgMeshGeom.vertex (m : SgMeshGeom) (k : ℕ) : Vector3f :=
  m.vertices.getD k (0, 0, 0)

/-- The normal the flat-shading branch computes for triangle `i`:
`e1 = P1 - P0`, `e2 = P2 - P0`, `e1.cross(e2).normalized()`.  Eigen's
`normalized()` lives outside this repository, so it is passed in as a
function applied identically by the code and by the specification. -/
def faceNormal (normalize : Vector3f → Vector3f) (m : SgMeshGeom)
    (i : ℕ) : Vector3f :=
  normalize (vcross
    (vsub (m.vertex (m.triVertex (3 * i + 1)))
      (m.vertex (m.triVertex (3 * i))))
    (vsub (m.vertex (m.triVertex (3 * i + 2)))
      (m.vertex (m.triVertex (3 * i)))))

/-- The flat-shading branch of `writeMeshNormalsSub`: for each triangle
in order, the face normal is appended once per corner (`for j < 3`). -/
def flatShadingNormals (normalize : Vector3f → Vector3f)
    (m : SgMeshGeom) : List Vector3f :=
  (List.range m.numTriangles).flatMap fun i =>
    [faceNormal normalize m i, faceNormal normalize m i,
      faceNormal normalize m i]

/-- Tripling each value of `range n` yields a list of length `3 * n`. -/
theorem flatMap_triple_length {α : Type} (f : ℕ → α) (n : ℕ) :
    ((List.range n).flatMap fun k => [f k, f k, f k]).length = 3 * n := by
  induction n with
  | zero => rfl
  | succ n ih =>
    rw [List.range_succ, List.flatMap_append, List.length_append, ih]
    simp
    omega

/-- Entry `3*i + j` of the tripled list is the value at `i`. -/
theorem flatMap_triple_getD {α : Type} (f : ℕ → α) (d : α) (n i j : ℕ)
    (hi : i < n) (hj : j < 3) :
    ((List.range n).flatMap fun k => [f k, f k, f k]).getD (3 * i + j) d =
      f i := by
  induction n with
  | zero => omega
  | succ n ih =>
    rw [List.range_succ, List.flatMap_append]
    by_cases h : i < n
    · rw [List.getD_append]
      · exact ih h
      · rw [flatMap_triple_length]
        omega
    · have hin : i = n := by omega
      rw [List.getD_append_right]
      · rw [flatMap_triple_length]
        subst hin
        have hidx : 3 * i + j - 3 * i = j := by omega
        rw [hidx]
        simp only [List.flatMap_cons, List.flatMap_nil, List.append_nil]
        rcases j with _ | _ | _ | j
        · rfl
        · rfl
        · rfl
        · omega
      · rw [flatMap_triple_length]
        omega

/-- C7: with smooth shading disabled, for every triangle `(P0, P1, P2)`
of the mesh the normal written for each of its three expanded vertices
equals `normalize((P1 - P0) x (P2 - P0))`, for any normalization
function. -/
theorem flat_shading_normals_correct (normalize : Vector3f → Vector3f)
    (m : SgMeshGeom) (i j : ℕ) (hi : i < m.numTriangles) (hj : j < 3) :
    (flatShadingNormals normalize m).getD (3 * i + j) (0, 0, 0) =
      normalize (vcross
        (vsub (m.vertex (m.triVertex (3 * i + 1)))
          (m.vertex (m.triVertex (3 * i))))
        (vsub (m.vertex (m.triVertex (3 * i + 2)))
          (m.vertex (m.triVertex (3 * i))))) := by
  unfold flatShadingNormals
  rw [flatMap_triple_getD _ _ _ _ _ hi hj]
  rfl

/-- One right triangle in the plane, used as the C7 witness mesh. -/
def flatSampleMesh : SgMeshGeom :=
  { vertices := [(0, 0, 0), (1, 0, 0), (0, 1, 0)]
    triangleVertices := [0, 1, 2] }

/-- Witness for C7: the triangle `((0,0,0), (1,0,0), (0,1,0))` at corner
`j = 1`, with the (here irrelevant) normalization instantiated to the
identity. -/
theorem flat_shading_normals_witness :
    0 < flatSampleMesh.numTriangles ∧ (1 : ℕ) < 3 ∧
    (flatShadingNormals id flatSampleMesh).getD (3 * 0 + 1) (0, 0, 0) =
      id (vcross
        (vsub (flatSampleMesh.vertex (flatSampleMesh.triVertex (3 * 0 + 1)))
          (flatSampleMesh.vertex (flatSampleMesh.triVertex (3 * 0))))
        (vsub (flatSampleMesh.vertex (flatSampleMesh.triVertex (3 * 0 + 2)))
          (flatSampleMesh.vertex (flatSampleMesh.triVertex (3 * 0))))) :=
  ⟨by decide, by decide,
    flat_shading_normals_correct id flatSampleMesh 0 1 (by decide) (by decide)⟩

end GLSLRenderer
